import Mathlib

/-!
Verification development for the `postgres_backup_plugin` repository.

The Python source is shallowly embedded in Lean 4:

* pure string-building code (`filters/common_filters.py`, `core/query_builder.py`)
  becomes Lean functions on `String`;
* the stateful SQL cleaner `PostgresBackupEngine._clean_sql_content`
  (`core/backup_engine.py`) becomes a line-by-line state machine over
  `List Char`, with every regular expression of the source implemented as an
  executable matcher with Python `re` semantics (leftmost, non-overlapping,
  case-insensitive where the source compiles with `re.IGNORECASE`);
* the I/O orchestration (`backup`, `_write_backup`, `estimate_size`) becomes
  total functions over oracles describing the outcomes of the external steps
  (database cursor, `pg_dump` subprocess, filesystem), mirroring the source's
  control flow: each fallible step is an `Except String` value.
-/

namespace PgBackup

/-! ## Character helpers (Python `re` character classes, ASCII fragment) -/

/-- Python whitespace class `\s` (ASCII part), also used by `str.strip()`. -/
def isPySpace (c : Char) : Bool :=
  c = ' ' || c = '\t' || c = '\n' || c = '\r' || c = '\x0b' || c = '\x0c'

/-- ASCII letter. -/
def isAsciiAlpha (c : Char) : Bool :=
  ('a' ≤ c && c ≤ 'z') || ('A' ≤ c && c ≤ 'Z')

/-- ASCII digit. -/
def isDigitC (c : Char) : Bool := '0' ≤ c && c ≤ '9'

/-- The class `[a-zA-Z_]` (first char of the identifier captures). -/
def isIdentStartC (c : Char) : Bool := isAsciiAlpha c || c = '_'

/-- The class `[a-zA-Z0-9_]`, which is also `\w`/`\b`-relevant (ASCII). -/
def isWordC (c : Char) : Bool := isAsciiAlpha c || isDigitC c || c = '_'

/-- ASCII lower-casing, used for `re.IGNORECASE` comparison. -/
def lowerC (c : Char) : Char :=
  if 'A' ≤ c && c ≤ 'Z' then Char.ofNat (c.toNat + 32) else c

/-- ASCII upper-casing, as in Python `str.upper()` on ASCII text. -/
def upperC (c : Char) : Char :=
  if 'a' ≤ c && c ≤ 'z' then Char.ofNat (c.toNat - 32) else c

/-- The single-quote character, written via its code point. -/
def sq : Char := Char.ofNat 39

/-- The single-quote character as a string. -/
def sqS : String := String.mk [sq]

/-- Python `str.strip()` on a character list (ASCII whitespace fragment). -/
def pyStrip (l : List Char) : List Char :=
  ((l.dropWhile isPySpace).reverse.dropWhile isPySpace).reverse

/-! ## Filter model (`src/filters/common_filters.py`)

A filter's `build(table_name, **params)` is modelled as a function
`String → String → String` taking the table name and the `schema` parameter
(the source reads `params.get('schema', 'public')`; the engine itself calls
`build(table_name)` with the default). -/

/-- `CustomQueryFilter.build`: returns the wrapped query, ignoring the table. -/
def customQueryBuild (query : String) : String → String → String :=
  fun _ _ => query

/-- `DateRangeFilter.build` (dates already formatted as strings). -/
def dateRangeBuild (dateColumn startDate endDate : String) (inclusive : Bool)
    (tableName schema : String) : String :=
  let condition :=
    if inclusive then
      dateColumn ++ " BETWEEN " ++ sqS ++ startDate ++ sqS ++ " AND " ++ sqS ++ endDate ++ sqS
    else
      dateColumn ++ " >= " ++ sqS ++ startDate ++ sqS ++ " AND " ++ dateColumn ++ " < " ++
        sqS ++ endDate ++ sqS
  "SELECT * FROM " ++ schema ++ "." ++ tableName ++ " WHERE " ++ condition

/-- A foreign-key value: Python passes either strings or other values
(rendered with `str`); the source checks `isinstance(fk_values[0], str)`. -/
inductive FkVal where
  | s (v : String)
  | i (v : Int)

/-- Python `str(v)` for an `FkVal`. -/
def FkVal.render : FkVal → String
  | .s v => v
  | .i v => toString v

/-- Whether the value is a Python `str`. -/
def FkVal.isStr : FkVal → Bool
  | .s _ => true
  | .i _ => false

/-- `ForeignKeyFilter.build`: empty value list renders `WHERE 1=0`; otherwise
the values are joined with `, ` (quoted when the first value is a string). -/
def foreignKeyBuild (fkColumn : String) (fkValues : List FkVal)
    (tableName schema : String) : String :=
  if fkValues.isEmpty then
    "SELECT * FROM " ++ schema ++ "." ++ tableName ++ " WHERE 1=0"
  else
    let valuesStr :=
      match fkValues with
      | .s _ :: _ =>
        String.intercalate ", " (fkValues.map (fun v => sqS ++ v.render ++ sqS))
      | _ =>
        String.intercalate ", " (fkValues.map FkVal.render)
    "SELECT * FROM " ++ schema ++ "." ++ tableName ++ " WHERE " ++ fkColumn ++
      " IN (" ++ valuesStr ++ ")"

/-- Case-sensitive prefix test on character lists. -/
def startsWithCS : List Char → List Char → Bool
  | [], _ => true
  | _ :: _, [] => false
  | p :: ps, c :: cs => c = p && startsWithCS ps cs

/-- First index at which `WHERE` occurs in the given text:
applied to the ASCII-upper-cased query this is
`query.upper().find('WHERE')` of `CompositeFilter.build`. -/
def findWhereIdx : List Char → Option Nat
  | [] => none
  | c :: cs =>
    if startsWithCS "WHERE".data (c :: cs) then some 0
    else (findWhereIdx cs).map (· + 1)

/-- `CompositeFilter.build`'s WHERE-clause extraction:
`query.upper().find('WHERE')`, then `query[where_idx + 5:].strip()`. -/
def extractCondition (query : String) : Option String :=
  match findWhereIdx (query.data.map upperC) with
  | none => none
  | some i => some (String.mk (pyStrip (query.data.drop (i + 5))))

/-- `CompositeFilter.build` over the sub-filters' `build` functions:
extracts each sub-filter's WHERE clause, parenthesizes it, and joins the
conditions with the operator; sub-filters without a WHERE clause are skipped.
-/
def compositeBuild (op : String) (filters : List (String → String → String))
    (tableName schema : String) : String :=
  if filters.isEmpty then "SELECT * FROM " ++ schema ++ "." ++ tableName
  else
    let conditions := filters.filterMap fun f =>
      (extractCondition (f tableName schema)).map fun c => "(" ++ c ++ ")"
    if conditions.isEmpty then "SELECT * FROM " ++ schema ++ "." ++ tableName
    else
      "SELECT * FROM " ++ schema ++ "." ++ tableName ++ " WHERE " ++
        String.intercalate (" " ++ op ++ " ") conditions

/-! ## Stream wrapper (`src/postgres_backup_plugin/core/stream_wrapper.py`)

`CopyToStreamWrapper` wraps a file-like sink.  The sink is modelled by its
capabilities (`hasattr(outfile, 'flush'/'close')`) and an event log of the
operations forwarded to it. -/

/-- Capabilities of the underlying sink (`hasattr` checks in the source). -/
structure SinkCaps where
  hasFlush : Bool
  hasClose : Bool

/-- Event log of the underlying sink: data written, flush and close calls. -/
structure SinkLog where
  writtenData : List String
  flushCalls : Nat
  closeCalls : Nat

/-- `CopyToStreamWrapper` state: the two counters plus the wrapped sink. -/
structure CopyWrap where
  caps : SinkCaps
  outLog : SinkLog
  bytesWritten : Nat
  chunksWritten : Nat

/-- A fresh wrapper around a sink (`__init__`). -/
def CopyWrap.init (caps : SinkCaps) : CopyWrap :=
  { caps := caps
    outLog := { writtenData := [], flushCalls := 0, closeCalls := 0 }
    bytesWritten := 0
    chunksWritten := 0 }

/-- `CopyToStreamWrapper.write`: forwards the chunk to the sink, counts its
UTF-8 byte length (`len(data.encode('utf-8'))`), bumps both counters and
returns the byte count. -/
def CopyWrap.write (w : CopyWrap) (data : String) : Nat × CopyWrap :=
  let bytesCount := data.utf8ByteSize
  (bytesCount,
    { w with
      outLog := { w.outLog with writtenData := w.outLog.writtenData ++ [data] }
      bytesWritten := w.bytesWritten + bytesCount
      chunksWritten := w.chunksWritten + 1 })

/-- `CopyToStreamWrapper.flush`: forwarded to the sink only if it has
`flush`; counters untouched. -/
def CopyWrap.flush (w : CopyWrap) : CopyWrap :=
  if w.caps.hasFlush then
    { w with outLog := { w.outLog with flushCalls := w.outLog.flushCalls + 1 } }
  else w

/-- `CopyToStreamWrapper.close`: forwarded to the sink only if it has
`close`; counters untouched. -/
def CopyWrap.close (w : CopyWrap) : CopyWrap :=
  if w.caps.hasClose then
    { w with outLog := { w.outLog with closeCalls := w.outLog.closeCalls + 1 } }
  else w

/-- The `stats` property: `bytes_written`, `chunks_written` and
`avg_chunk_size = bytes_written / max(chunks_written, 1)` (exact division). -/
def CopyWrap.stats (w : CopyWrap) : Nat × Nat × ℚ :=
  (w.bytesWritten, w.chunksWritten,
    (w.bytesWritten : ℚ) / (max w.chunksWritten 1 : ℚ))

/-- Run a sequence of `write` calls, collecting the returned byte counts. -/
def CopyWrap.writeAll (w : CopyWrap) : List String → List Nat × CopyWrap
  | [] => ([], w)
  | d :: ds =>
    ((w.write d).1 :: ((w.write d).2.writeAll ds).1, ((w.write d).2.writeAll ds).2)

/-! ## Query builder (`src/postgres_backup_plugin/core/query_builder.py`)

Only the pieces the claims touch. -/

/-- `QueryBuilder.build_select_all`. -/
def buildSelectAll (tableName schema : String) : String :=
  "SELECT * FROM " ++ schema ++ "." ++ tableName

/-- `QueryBuilder.get_row_count`. -/
def getRowCount (query : String) : String :=
  "SELECT COUNT(*) FROM (" ++ query ++ ") AS t"

/-- `QueryBuilder.get_column_structure`. -/
def getColumnStructure (query : String) : String :=
  "SELECT * FROM (" ++ query ++ ") AS t LIMIT 0"

/-- `QueryBuilder.build_copy_from` (the `COPY ... FROM stdin` header the
writer emits before each table's data block). -/
def buildCopyFrom (tableName : String) (columns : List String)
    (delimiter nullString quoteChar escapeChar : String) : String :=
  "COPY " ++ tableName ++ " (" ++ String.intercalate ", " columns ++
    ") FROM stdin WITH (FORMAT CSV, DELIMITER E" ++ sqS ++ delimiter ++ sqS ++
    ", NULL " ++ sqS ++ nullString ++ sqS ++ ", QUOTE E" ++ sqS ++ quoteChar ++ sqS ++
    ", ESCAPE E" ++ sqS ++ escapeChar ++ sqS ++ ")"

/-- `QueryBuilder.build_performance_settings`. -/
def buildPerformanceSettings (disableTriggers disableFsync : Bool) : List String :=
  (if disableTriggers then ["SET session_replication_role = replica;"] else []) ++
    (if disableFsync then ["SET synchronous_commit = off;"] else [])

/-- `QueryBuilder.build_schema_setup`. -/
def buildSchemaSetup (schemaName : String) (dropExisting : Bool) : List String :=
  (if dropExisting then ["DROP SCHEMA IF EXISTS " ++ schemaName ++ " CASCADE;"] else []) ++
    ["CREATE SCHEMA " ++ schemaName ++ ";",
     "SET search_path = " ++ schemaName ++ ", public;"]

/-! ## Backup writer (`src/postgres_backup_plugin/core/backup_engine.py`)

`_write_backup` streams a document through `outfile.write` calls and returns a
stats dict.  The document is modelled at line granularity: each element of the
produced list is one `\n`-terminated line of the output (a lone `"\n"` write is
an empty line `""`).  The externally-determined inputs — the catalog's table
list, what the `pg_dump` subprocess emits, the cursor's column/row answers and
the streamed COPY payload — are oracles. -/

/-- A per-table entry of `stats['tables']`. -/
structure BTableStats where
  rows : Nat
  bytes : Nat
  columns : Nat
deriving DecidableEq

/-- What happens for one table inside the main write loop.
`ok` carries the lines `_dump_table_structure` writes for the table, the
column names discovered by the zero-row query, the row count, the streamed
COPY payload lines and the wrapper's byte count; `err` models
`_backup_table` raising, carrying whatever partial lines had been written
before the raise and the exception text. -/
inductive TableOutcome where
  | ok (structEmitted : List String) (columnNames : List String) (rowCount : Nat)
      (dataLines : List String) (bytesStreamed : Nat)
  | err (partialLines : List String) (msg : String)

/-- The stats record `_backup_table` returns (bytes stay 0 for empty tables). -/
def tableStatsOf : TableOutcome → Option BTableStats
  | .ok _ cols rows _ bytes => some ⟨rows, if rows > 0 then bytes else 0, cols.length⟩
  | .err _ _ => none

/-- Environment of one `_write_backup` run: catalog table order, the exclusion
list of the `BackupConfig`, and the per-table outcome oracle. -/
structure WriteEnv where
  tables : List String
  excluded : List String
  outcome : String → TableOutcome

/-- Parameters of the written document that come from configuration and
clocks. -/
structure WriteParams where
  includeHeader : Bool
  generatedTs : String
  dbName : String
  schemaName : Option String
  metadata : List (String × String)
  filtersCount : Option Nat
  disableTriggers : Bool
  disableFsync : Bool
  copyDelimiter : String
  copyNullString : String
  completedTs : String

/-- The section header line `-- Data for table: <t>`. -/
def hdrLine (t : String) : String := "-- Data for table: " ++ t

/-- Lines of `_write_header`. -/
def headerLines (p : WriteParams) : List String :=
  if !p.includeHeader then []
  else
    ["-- PostgreSQL Database Backup",
     "-- Generated: " ++ p.generatedTs,
     "-- Database: " ++ p.dbName,
     "-- Using COPY format for fast restore"] ++
    (match p.schemaName with
     | some s => ["-- Target schema: " ++ s]
     | none => []) ++
    (match p.filtersCount with
     | some n => ["-- Filtered tables: " ++ toString n]
     | none => []) ++
    (if p.metadata.isEmpty then []
     else "-- Metadata:" ::
       p.metadata.map (fun kv => "--   " ++ kv.1 ++ ": " ++ kv.2)) ++
    [""]

/-- Lines of `_write_schema_setup` (emitted only when a schema name is given).
-/
def schemaSetupLines (p : WriteParams) : List String :=
  match p.schemaName with
  | none => []
  | some s =>
    ["-- ========================================",
     "-- SCHEMA SETUP",
     "-- ========================================",
     ""] ++ buildSchemaSetup s true ++ [""]

/-- Lines of `_write_performance_settings`. -/
def perfLines (p : WriteParams) : List String :=
  ["-- ========================================",
   "-- PERFORMANCE OPTIMIZATIONS",
   "-- ========================================",
   ""] ++ buildPerformanceSettings p.disableTriggers p.disableFsync ++ [""]

/-- Lines of `_write_footer`. -/
def footerLines (p : WriteParams) : List String :=
  ["-- ========================================",
   "-- FINALIZATION",
   "-- ========================================",
   "",
   "-- Re-enable optimizations",
   "SET session_replication_role = DEFAULT;",
   "SET synchronous_commit = on;",
   "ANALYZE;",
   "",
   "-- Backup completed: " ++ p.completedTs]

/-- The lines one table contributes to the document: `_backup_table`'s writes
on success, and `_write_backup`'s inline error comment after a raise. -/
def sectionLines (p : WriteParams) (t : String) : TableOutcome → List String
  | .ok structEmitted cols rows dataLines _ =>
    structEmitted ++
    (if rows > 0 then
      ["", hdrLine t, "-- Rows: " ++ toString rows,
       buildCopyFrom t cols p.copyDelimiter p.copyNullString "\\b" "\\b" ++ ";"] ++
      dataLines ++ ["\\.", ""]
    else
      ["", hdrLine t, "-- No rows to export (filtered or empty)", ""])
  | .err partialLines msg =>
    partialLines ++ ["", "-- ERROR backing up table: " ++ t, "-- " ++ msg, ""]

/-- The full document `_write_backup` produces, as a list of lines. -/
def writeBackupLines (p : WriteParams) (env : WriteEnv) : List String :=
  headerLines p ++ schemaSetupLines p ++ perfLines p ++
  ["-- ========================================",
   "-- TABLE STRUCTURES AND DATA",
   "-- ========================================",
   ""] ++
  (env.tables.map (fun t =>
    if env.excluded.contains t then []
    else sectionLines p t (env.outcome t))).flatten ++
  footerLines p

/-- The `stats['tables']` dict `_write_backup` builds: one entry per
non-excluded table whose `_backup_table` call returned, in loop order. -/
def statsTables (env : WriteEnv) : List String → List (String × BTableStats)
  | [] => []
  | t :: ts =>
    if env.excluded.contains t then statsTables env ts
    else
      match tableStatsOf (env.outcome t) with
      | some s => (t, s) :: statsTables env ts
      | none => statsTables env ts

/-- The stats record `_write_backup` returns: `tables_count` and `total_rows`
are accumulated exactly over the successful per-table entries. -/
structure WStats where
  tablesCount : Nat
  totalRows : Nat
  tables : List (String × BTableStats)
deriving DecidableEq

/-- Assemble the stats of a `_write_backup` run. -/
def writeStats (env : WriteEnv) : WStats :=
  let tl := statsTables env env.tables
  ⟨tl.length, (tl.map (fun x => x.2.rows)).sum, tl⟩

/-- `estimate_size`: one `(table, row_count)` entry per non-excluded catalog
table, in catalog order; the row count oracle stands for executing the
wrapped `COUNT(*)` query. -/
def estimateSize (tables excluded : List String) (rowCount : String → Nat) :
    List (String × Nat) :=
  match tables with
  | [] => []
  | t :: ts =>
    if excluded.contains t then estimateSize ts excluded rowCount
    else (t, rowCount t) :: estimateSize ts excluded rowCount

/-! ## Top-level `backup` control flow

Each fallible internal step is an `Except String` oracle (a raised exception
is its `str(e)` text).  `backup` wraps all steps in one `try/except Exception`
whose handler fills `success=False`, `error_message=str(e)` and the elapsed
duration into the result. -/

/-- Outcomes of the internal steps of one `backup` call, in program order. -/
structure StepsOutcome where
  validateRes : Except String Unit
  connectRes : Except String Unit
  mkdirRes : Except String Unit
  writeRes : Except String WStats
  cleanRes : Except String Unit
  sizeRes : Except String Nat

/-- The `BackupResult` record (`config.py`), with the fields the claims
touch; `metaCleaned` models `result.metadata['cleaned'] = True`. -/
structure BackupResultM where
  success : Bool
  filePath : Option String
  sizeBytes : Option Nat
  tablesCount : Nat
  totalRows : Nat
  durationSeconds : Nat
  errorMessage : Option String
  metaCleaned : Bool
  stats : Option WStats
deriving DecidableEq

/-- `BackupResult(success=False)` as initialized at the top of `backup`. -/
def emptyResult : BackupResultM :=
  ⟨false, none, none, 0, 0, 0, none, false, none⟩

/-- What the `except` handler of `backup` produces. -/
def failResult (e : String) (elapsed : Nat) : BackupResultM :=
  { emptyResult with errorMessage := some e, durationSeconds := elapsed }

/-- The `backup` method: validate filters (only when a filters dict was
passed), connect, ensure the output directory, write (to a temp file when
cleaning), clean when enabled, stat the output file; any step's exception is
caught and surfaced in the result instead of propagating. -/
def backupModel (hasFilters cleanOutput : Bool) (st : StepsOutcome)
    (outputPath : String) (elapsed : Nat) : BackupResultM :=
  match (if hasFilters then st.validateRes else .ok ()) with
  | .error e => failResult e elapsed
  | .ok _ =>
  match st.connectRes with
  | .error e => failResult e elapsed
  | .ok _ =>
  match st.mkdirRes with
  | .error e => failResult e elapsed
  | .ok _ =>
  match st.writeRes with
  | .error e => failResult e elapsed
  | .ok stats =>
  match (if cleanOutput then st.cleanRes else .ok ()) with
  | .error e => failResult e elapsed
  | .ok _ =>
  match st.sizeRes with
  | .error e => failResult e elapsed
  | .ok size =>
    { success := true
      filePath := some outputPath
      sizeBytes := some size
      tablesCount := stats.tablesCount
      totalRows := stats.totalRows
      durationSeconds := elapsed
      errorMessage := none
      metaCleaned := cleanOutput
      stats := some stats }

/-- The text of the first exception a `backup` call runs into, if any,
following the same step order as `backupModel`. -/
def firstFailure (hasFilters cleanOutput : Bool) (st : StepsOutcome) :
    Option String :=
  match (if hasFilters then st.validateRes else .ok ()) with
  | .error e => some e
  | .ok _ =>
  match st.connectRes with
  | .error e => some e
  | .ok _ =>
  match st.mkdirRes with
  | .error e => some e
  | .ok _ =>
  match st.writeRes with
  | .error e => some e
  | .ok _ =>
  match (if cleanOutput then st.cleanRes else .ok ()) with
  | .error e => some e
  | .ok _ =>
  match st.sizeRes with
  | .error e => some e
  | .ok _ => none

/-! ## SQL-text cleaner (`PostgresBackupEngine._clean_sql_content`)

The cleaner is a line-by-line two-state machine over the document text.
Every regular expression of the source is implemented over `List Char` with
Python `re` semantics:

* `pattern.match(line)` is a prefix test;
* `re.sub` replaces the leftmost non-overlapping matches, scanning the
  original line left to right and never rescanning replacements;
* `\b` before the leading keyword of each substitution pattern is the
  word-boundary test against the original character preceding the match;
* `re.IGNORECASE` (set on every pattern except the final catch-all
  `\bpublic\.(…)`) is ASCII case folding;
* greedy `\s+` and the greedy identifier captures need no backtracking in
  these patterns because each is followed by a non-member character, and the
  optional groups `(?:ONLY\s+)?`, `(?:IF\s+EXISTS\s+)?`, `(?:TABLE\s+)?`,
  `(UNIQUE\s+)?` are expanded into ordered alternatives (group present
  first), which matches the backtracking preference of `re`;
* the lazy group `(.+?)` of the GRANT/REVOKE pattern extends one character at
  a time, trying the pattern tail at every stop.
-/

/-- CI prefix match returning the matched original text and the rest. -/
def litCIcap : List Char → List Char → Option (List Char × List Char)
  | [], l => some ([], l)
  | _ :: _, [] => none
  | p :: ps, c :: cs =>
    if lowerC c = lowerC p then
      (litCIcap ps cs).map (fun pr => (c :: pr.1, pr.2))
    else none

/-- Case-sensitive prefix match returning matched text and rest. -/
def litCScap : List Char → List Char → Option (List Char × List Char)
  | [], l => some ([], l)
  | _ :: _, [] => none
  | p :: ps, c :: cs =>
    if c = p then (litCScap ps cs).map (fun pr => (c :: pr.1, pr.2)) else none

/-- Greedy `\s+`: one or more whitespace characters, maximal munch. -/
def sp1cap : List Char → Option (List Char × List Char)
  | [] => none
  | c :: cs =>
    if isPySpace c then some (c :: cs.takeWhile isPySpace, cs.dropWhile isPySpace)
    else none

/-- Greedy identifier capture `([a-zA-Z_][a-zA-Z0-9_]*)`. -/
def identCap : List Char → Option (List Char × List Char)
  | [] => none
  | c :: cs =>
    if isIdentStartC c then some (c :: cs.takeWhile isWordC, cs.dropWhile isWordC)
    else none

/-- One element of a (flattened) substitution pattern. -/
inductive PatEl where
  | litCI (s : List Char)
  | litCS (s : List Char)
  | ws1
  | capIdent
  | capLit (s : List Char)
  | capLitWs (s : List Char)
deriving DecidableEq

/-- Match a flattened pattern (no optional/lazy parts) against a prefix of the
text; returns the captures in order, the consumed original text, and the rest.
-/
def matchSimple : List PatEl → List Char → Option (List (List Char) × List Char × List Char)
  | [], l => some ([], [], l)
  | .litCI s :: ps, l =>
    match litCIcap s l with
    | none => none
    | some (m, r) =>
      match matchSimple ps r with
      | none => none
      | some (caps, con, rest) => some (caps, m ++ con, rest)
  | .litCS s :: ps, l =>
    match litCScap s l with
    | none => none
    | some (m, r) =>
      match matchSimple ps r with
      | none => none
      | some (caps, con, rest) => some (caps, m ++ con, rest)
  | .ws1 :: ps, l =>
    match sp1cap l with
    | none => none
    | some (m, r) =>
      match matchSimple ps r with
      | none => none
      | some (caps, con, rest) => some (caps, m ++ con, rest)
  | .capIdent :: ps, l =>
    match identCap l with
    | none => none
    | some (idt, r) =>
      match matchSimple ps r with
      | none => none
      | some (caps, con, rest) => some (idt :: caps, idt ++ con, rest)
  | .capLit s :: ps, l =>
    match litCIcap s l with
    | none => none
    | some (m, r) =>
      match matchSimple ps r with
      | none => none
      | some (caps, con, rest) => some (m :: caps, m ++ con, rest)
  | .capLitWs s :: ps, l =>
    match litCIcap s l with
    | none => none
    | some (m, r) =>
      match sp1cap r with
      | none => none
      | some (w, r') =>
        match matchSimple ps r' with
        | none => none
        | some (caps, con, rest) => some ((m ++ w) :: caps, m ++ w ++ con, rest)

/-- One element of a replacement template: literal text or group reference. -/
inductive TplEl where
  | lit (s : List Char)
  | grp (i : Nat)

/-- Render a replacement template from the captured groups (an unmatched
group renders as the empty string, as `re.sub` does). -/
def renderTpl : List TplEl → List (List Char) → List Char
  | [], _ => []
  | .lit s :: ts, caps => s ++ renderTpl ts caps
  | .grp i :: ts, caps => caps.getD i [] ++ renderTpl ts caps

/-- A substitution rule, flattened into ordered (pattern, template)
alternatives. -/
structure SubRule where
  alts : List (List PatEl × List TplEl)

/-- Try the alternatives of a rule in order at the head of the text. -/
def tryAlts : List (List PatEl × List TplEl) → List Char →
    Option (List Char × List Char × List Char)
  | [], _ => none
  | (pat, tpl) :: rest, l =>
    match matchSimple pat l with
    | some (caps, con, r) => some (renderTpl tpl caps, con, r)
    | none => tryAlts rest l

/-- A matcher at one position: given the previous original character (for
`\b`) and the text from this position, produce (replacement, consumed
original, rest). -/
def Matcher : Type := Option Char → List Char → Option (List Char × List Char × List Char)

/-- `\b` before a word character: position 0 or previous char not `\w`. -/
def atB : Option Char → Bool
  | none => true
  | some c => !isWordC c

/-- Rule matcher from flattened alternatives (all our patterns begin with
`\b` followed by a word character). -/
def mkMatcher (ru : SubRule) : Matcher := fun prev l =>
  if atB prev then tryAlts ru.alts l else none

/-- `re.sub` over one line with explicit fuel (one unit per scan position;
`fuel = l.length` is always enough): at each position try the matcher; on a
match emit the replacement and continue after the consumed text, otherwise
copy one character. -/
def subAllF (m : Matcher) : Nat → Option Char → List Char → List Char
  | 0, _, l => l
  | _ + 1, _, [] => []
  | fuel + 1, prev, c :: cs =>
    match m prev (c :: cs) with
    | some (rep, con, rest) =>
      if rest.length ≤ cs.length then
        rep ++ subAllF m fuel (some (con.getLastD c)) rest
      else c :: subAllF m fuel (some c) cs
    | none => c :: subAllF m fuel (some c) cs

/-- `re.sub(pattern, replacement, line)` for one rule. -/
def runSub (m : Matcher) (l : List Char) : List Char :=
  subAllF m l.length none l

/-- Literal `public.`. -/
def pubDot : List Char := "public.".data

/-- Substitution 1: `\bCREATE\s+TABLE\s+public\.(ident)` → `CREATE TABLE \1`.
-/
def mCreateTable : Matcher := mkMatcher ⟨[
  ([.litCI "CREATE".data, .ws1, .litCI "TABLE".data, .ws1, .litCI pubDot, .capIdent],
   [.lit "CREATE TABLE ".data, .grp 0])]⟩

/-- Substitution 2: `\bINSERT\s+INTO\s+public\.(ident)` → `INSERT INTO \1`. -/
def mInsertInto : Matcher := mkMatcher ⟨[
  ([.litCI "INSERT".data, .ws1, .litCI "INTO".data, .ws1, .litCI pubDot, .capIdent],
   [.lit "INSERT INTO ".data, .grp 0])]⟩

/-- Substitution 3: `\bALTER\s+TABLE\s+(?:ONLY\s+)?public\.(ident)` →
`ALTER TABLE \1` (alternative with `ONLY` first). -/
def mAlterTable : Matcher := mkMatcher ⟨[
  ([.litCI "ALTER".data, .ws1, .litCI "TABLE".data, .ws1, .litCI "ONLY".data, .ws1,
    .litCI pubDot, .capIdent],
   [.lit "ALTER TABLE ".data, .grp 0]),
  ([.litCI "ALTER".data, .ws1, .litCI "TABLE".data, .ws1, .litCI pubDot, .capIdent],
   [.lit "ALTER TABLE ".data, .grp 0])]⟩

/-- Substitution 4:
`\bCREATE\s+(UNIQUE\s+)?INDEX\s+(ident)\s+ON\s+public\.(ident)` →
`CREATE \1INDEX \2 ON \3`. -/
def mCreateIndex : Matcher := mkMatcher ⟨[
  ([.litCI "CREATE".data, .ws1, .capLitWs "UNIQUE".data, .litCI "INDEX".data, .ws1,
    .capIdent, .ws1, .litCI "ON".data, .ws1, .litCI pubDot, .capIdent],
   [.lit "CREATE ".data, .grp 0, .lit "INDEX ".data, .grp 1, .lit " ON ".data, .grp 2]),
  ([.litCI "CREATE".data, .ws1, .litCI "INDEX".data, .ws1,
    .capIdent, .ws1, .litCI "ON".data, .ws1, .litCI pubDot, .capIdent],
   [.lit "CREATE INDEX ".data, .grp 0, .lit " ON ".data, .grp 1])]⟩

/-- Substitution 5: `\bCREATE\s+SEQUENCE\s+public\.(ident)` →
`CREATE SEQUENCE \1`. -/
def mCreateSequence : Matcher := mkMatcher ⟨[
  ([.litCI "CREATE".data, .ws1, .litCI "SEQUENCE".data, .ws1, .litCI pubDot, .capIdent],
   [.lit "CREATE SEQUENCE ".data, .grp 0])]⟩

/-- Substitution 6: `\bALTER\s+SEQUENCE\s+public\.(ident)` →
`ALTER SEQUENCE \1`. -/
def mAlterSequence : Matcher := mkMatcher ⟨[
  ([.litCI "ALTER".data, .ws1, .litCI "SEQUENCE".data, .ws1, .litCI pubDot, .capIdent],
   [.lit "ALTER SEQUENCE ".data, .grp 0])]⟩

/-- Substitution 7 (also applied to the COPY-start line of a bulk block):
`\bCOPY\s+public\.(ident)` → `COPY \1`. -/
def mCopyStmt : Matcher := mkMatcher ⟨[
  ([.litCI "COPY".data, .ws1, .litCI pubDot, .capIdent],
   [.lit "COPY ".data, .grp 0])]⟩

/-- Substitution 8: `\bREFERENCES\s+public\.(ident)` → `REFERENCES \1`. -/
def mReferences : Matcher := mkMatcher ⟨[
  ([.litCI "REFERENCES".data, .ws1, .litCI pubDot, .capIdent],
   [.lit "REFERENCES ".data, .grp 0])]⟩

/-- The literal `pg_catalog.setval('` (single quote spelled via `sq`). -/
def setvalOpen : List Char := "pg_catalog.setval(".data ++ [sq]

/-- Substitution 9: `\bSELECT\s+pg_catalog\.setval\('public\.(ident)'` →
`SELECT pg_catalog.setval('\1'`. -/
def mSetval : Matcher := mkMatcher ⟨[
  ([.litCI "SELECT".data, .ws1, .litCI setvalOpen, .litCI pubDot, .capIdent, .litCI [sq]],
   [.lit ("SELECT ".data ++ setvalOpen), .grp 0, .lit [sq]])]⟩

/-- Substitution 10:
`\bDROP\s+(TABLE|SEQUENCE)\s+(?:IF\s+EXISTS\s+)?public\.(ident)` →
`DROP \1 IF EXISTS \2` (note: the replacement inserts `IF EXISTS`). -/
def mDropStmt : Matcher := mkMatcher ⟨[
  ([.litCI "DROP".data, .ws1, .capLit "TABLE".data, .ws1, .litCI "IF".data, .ws1,
    .litCI "EXISTS".data, .ws1, .litCI pubDot, .capIdent],
   [.lit "DROP ".data, .grp 0, .lit " IF EXISTS ".data, .grp 1]),
  ([.litCI "DROP".data, .ws1, .capLit "TABLE".data, .ws1, .litCI pubDot, .capIdent],
   [.lit "DROP ".data, .grp 0, .lit " IF EXISTS ".data, .grp 1]),
  ([.litCI "DROP".data, .ws1, .capLit "SEQUENCE".data, .ws1, .litCI "IF".data, .ws1,
    .litCI "EXISTS".data, .ws1, .litCI pubDot, .capIdent],
   [.lit "DROP ".data, .grp 0, .lit " IF EXISTS ".data, .grp 1]),
  ([.litCI "DROP".data, .ws1, .capLit "SEQUENCE".data, .ws1, .litCI pubDot, .capIdent],
   [.lit "DROP ".data, .grp 0, .lit " IF EXISTS ".data, .grp 1])]⟩

/-- The pattern tail after the lazy group of substitution 11, with the
optional `TABLE\s+` present. -/
def grantTailA : List PatEl :=
  [.ws1, .litCI "ON".data, .ws1, .litCI "TABLE".data, .ws1, .litCI pubDot, .capIdent]

/-- The pattern tail after the lazy group of substitution 11, without
`TABLE\s+`. -/
def grantTailB : List PatEl :=
  [.ws1, .litCI "ON".data, .ws1, .litCI pubDot, .capIdent]

/-- The lazy group `(.+?)` of substitution 11: extend the group one (non
newline) character at a time; at each stop try the pattern tail, preferring
the `TABLE\s+` alternative.  Returns (group text, tail captures, tail
consumed, rest). -/
def lazySearch (acc : List Char) :
    List Char → Option (List Char × List (List Char) × List Char × List Char)
  | [] => none
  | c :: cs =>
    if c = '\n' then none
    else
      match matchSimple grantTailA cs with
      | some (caps, con, rest) => some (acc ++ [c], caps, con, rest)
      | none =>
        match matchSimple grantTailB cs with
        | some (caps, con, rest) => some (acc ++ [c], caps, con, rest)
        | none => lazySearch (acc ++ [c]) cs

/-- Substitution 11:
`\b(GRANT|REVOKE)\s+(.+?)\s+ON\s+(?:TABLE\s+)?public\.(ident)` →
`\1 \2 ON \3`. -/
def mGrantRevoke : Matcher := fun prev l =>
  if atB prev then
    match
      (match litCIcap "GRANT".data l with
       | some x => some x
       | none => litCIcap "REVOKE".data l) with
    | none => none
    | some (g1, r1) =>
      match sp1cap r1 with
      | none => none
      | some (w1, r2) =>
        match lazySearch [] r2 with
        | none => none
        | some (g2, tailCaps, tailCon, rest) =>
          some (g1 ++ " ".data ++ g2 ++ " ON ".data ++ tailCaps.getD 0 [],
                g1 ++ w1 ++ g2 ++ tailCon, rest)
  else none

/-- Substitution 12: `\bON\s+public\.(ident)\s+FOR\s+EACH` →
`ON \1 FOR EACH`. -/
def mTriggerOn : Matcher := mkMatcher ⟨[
  ([.litCI "ON".data, .ws1, .litCI pubDot, .capIdent, .ws1, .litCI "FOR".data, .ws1,
    .litCI "EACH".data],
   [.lit "ON ".data, .grp 0, .lit " FOR EACH".data])]⟩

/-- Substitution 13 (catch-all, case-sensitive): `\bpublic\.(ident)` → `\1`.
-/
def mCatchAll : Matcher := mkMatcher ⟨[
  ([.litCS pubDot, .capIdent], [.grp 0])]⟩

/-- The thirteen substitutions of `_clean_sql_content`, in source order. -/
def subMatchers : List Matcher :=
  [mCreateTable, mInsertInto, mAlterTable, mCreateIndex, mCreateSequence,
   mAlterSequence, mCopyStmt, mReferences, mSetval, mDropStmt, mGrantRevoke,
   mTriggerOn, mCatchAll]

/-- The whole substitution chain applied to one OUTSIDE-state line. -/
def applySubs (l : List Char) : List Char :=
  subMatchers.foldl (fun acc m => runSub m acc) l

/-- `pattern.match(line)` for a flattened prefix pattern. -/
def matchesPat (ps : List PatEl) (l : List Char) : Bool :=
  (matchSimple ps l).isSome

/-- Skip pattern `^SET\s+<keyword>` (case-insensitive prefix match). -/
def skipSetKw (kw : List Char) (l : List Char) : Bool :=
  (matchSimple [.litCI "SET".data, .ws1, .litCI kw] l).isSome

/-- Skip pattern `^\s*CREATE\s+SCHEMA\s+public\s*;`. -/
def skipCreateSchemaPub (l : List Char) : Bool :=
  match matchSimple [.litCI "CREATE".data, .ws1, .litCI "SCHEMA".data, .ws1,
      .litCI "public".data] (l.dropWhile isPySpace) with
  | some (_, _, rest) =>
    match rest.dropWhile isPySpace with
    | ';' :: _ => true
    | _ => false
  | none => false

/-- The drop patterns of `_clean_sql_content` (`skip_patterns`, applied with
`pattern.match(line)` outside COPY blocks), in source order. -/
def shouldSkip (l : List Char) : Bool :=
  -- ^\s*--.*$  (full-line comments)
  startsWithCS "--".data (l.dropWhile isPySpace) ||
  -- ^\s*$  (blank lines)
  l.all isPySpace ||
  -- ^SET\s+search_path
  skipSetKw "search_path".data l ||
  -- ^SELECT\s+pg_catalog\.set_config
  (matchSimple [.litCI "SELECT".data, .ws1, .litCI "pg_catalog.set_config".data] l).isSome ||
  -- ^\s*\\[a-zA-Z]+.*$  (psql meta-commands, but not the \. terminator)
  (match l.dropWhile isPySpace with
   | '\\' :: c :: _ => isAsciiAlpha c
   | _ => false) ||
  skipSetKw "default_table_access_method".data l ||
  skipSetKw "default_tablespace".data l ||
  skipSetKw "default_with_oids".data l ||
  skipSetKw "row_security".data l ||
  skipSetKw "check_function_bodies".data l ||
  skipSetKw "xmloption".data l ||
  skipSetKw "client_min_messages".data l ||
  skipSetKw "standard_conforming_strings".data l ||
  skipSetKw "transaction_timeout".data l ||
  skipSetKw "idle_in_transaction_session_timeout".data l ||
  skipSetKw "client_encoding".data l ||
  skipCreateSchemaPub l ||
  -- ^\s*COMMENT\s+ON\s+SCHEMA\s+public
  (matchSimple [.litCI "COMMENT".data, .ws1, .litCI "ON".data, .ws1,
     .litCI "SCHEMA".data, .ws1, .litCI "public".data] (l.dropWhile isPySpace)).isSome

/-- `copy_start_pattern`: `^COPY\s+` (case-insensitive). -/
def copyStartB (l : List Char) : Bool :=
  (matchSimple [.litCI "COPY".data, .ws1] l).isSome

/-- `copy_end_pattern`: `^\\\.(\s*)$`. -/
def copyEndB (l : List Char) : Bool :=
  match l with
  | c1 :: c2 :: r => c1 == '\\' && c2 == '.' && r.all isPySpace
  | _ => false

/-- Does the line survive the final `if line.strip():` check. -/
def stripNonEmpty (l : List Char) : Bool :=
  l.any (fun c => !isPySpace c)

/-- The per-line loop of `_clean_sql_content`, threading the
`in_copy_block` boolean.  Branch order follows the source: COPY-start test
first (rewriting the line with substitution 7 when prefix removal is on),
then the terminator test, then the opaque in-block copy, then the drop
patterns, then the substitution chain and the emptiness check. -/
def cleanLines (removePfx : Bool) : Bool → List (List Char) → List (List Char)
  | _, [] => []
  | inCopy, l :: ls =>
    if copyStartB l then
      (if removePfx then runSub mCopyStmt l else l) :: cleanLines removePfx true ls
    else if copyEndB l then
      l :: cleanLines removePfx false ls
    else if inCopy then
      l :: cleanLines removePfx true ls
    else if shouldSkip l then
      cleanLines removePfx inCopy ls
    else
      let l' := if removePfx then applySubs l else l
      if stripNonEmpty l' then l' :: cleanLines removePfx inCopy ls
      else cleanLines removePfx inCopy ls

/-- Python `content.split('\n')`. -/
def splitNl : List Char → List (List Char)
  | [] => [[]]
  | c :: cs =>
    if c = '\n' then [] :: splitNl cs
    else
      match splitNl cs with
      | [] => [[c]]
      | l :: ls => (c :: l) :: ls

/-- Python `'\n'.join(lines)`. -/
def joinNl : List (List Char) → List Char
  | [] => []
  | [l] => l
  | l :: ls => l ++ '\n' :: joinNl ls

/-- `PostgresBackupEngine._clean_sql_content` over a character list:
empty-after-strip content yields `""`; otherwise the line loop runs from the
OUTSIDE state and the kept lines are re-joined with `\n`. -/
def cleanSqlContentL (removePfx : Bool) (content : List Char) : List Char :=
  if content.all isPySpace then []
  else joinNl (cleanLines removePfx false (splitNl content))

/-- `_clean_sql_content` on `String`s (with `remove_schema_prefix=True`, as
every caller in the source passes). -/
def cleanSqlContent (content : String) : String :=
  String.mk (cleanSqlContentL true content.data)

/-- A valid identifier of the capture class `[a-zA-Z_][a-zA-Z0-9_]*`. -/
def identOk : List Char → Bool
  | [] => false
  | c :: cs => isIdentStartC c && cs.all isWordC

/-- The text following a maximal identifier match must not begin with a word
character. -/
def headNotWord : List Char → Bool
  | [] => true
  | c :: _ => !isWordC c

/-- Sample writer parameters for concrete instantiations. -/
def sampleParams : WriteParams :=
  { includeHeader := true
    generatedTs := "2024-01-01T00:00:00"
    dbName := "mydb"
    schemaName := some "s1"
    metadata := [("env", "test")]
    filtersCount := some 1
    disableTriggers := true
    disableFsync := true
    copyDelimiter := "\\t"
    copyNullString := "\\N"
    completedTs := "2024-01-01T00:01:00" }

/-- Sample environment where table `b` fails at write time. -/
def sampleErrEnv : WriteEnv :=
  { tables := ["a", "b", "c"]
    excluded := []
    outcome := fun t =>
      if t = "b" then .err [] "boom"
      else .ok ["-- Table structure for: t"] ["id"] 2 ["1", "2"] 4 }

/-- Sample environment with an excluded table. -/
def sampleExcludeEnv : WriteEnv :=
  { tables := ["audit_log", "users"]
    excluded := ["audit_log"]
    outcome := fun _ => .ok ["-- Table structure for: users"] ["id"] 1 ["1"] 2 }

/-! ## Lemmas about the matcher primitives -/

/-- Case-insensitive prefix test. -/
def startsWithCI : List Char → List Char → Bool
  | [], _ => true
  | _ :: _, [] => false
  | p :: ps, c :: cs => (lowerC c = lowerC p) && startsWithCI ps cs

/-- Case-insensitive substring test for a token. -/
def containsTokCI (tok : List Char) : List Char → Bool
  | [] => startsWithCI tok []
  | c :: cs => startsWithCI tok (c :: cs) || containsTokCI tok cs

/-- The token `public`. -/
def pubTok : List Char := "public".data

theorem litCIcap_spec : ∀ (s l m r : List Char), litCIcap s l = some (m, r) →
    m ++ r = l ∧ startsWithCI s l = true := by
  intro s
  induction s with
  | nil =>
    intro l m r h
    simp [litCIcap] at h
    simp [h.1, h.2, startsWithCI]
  | cons p ps ih =>
    intro l m r h
    cases l with
    | nil => simp [litCIcap] at h
    | cons c cs =>
      by_cases hc : lowerC c = lowerC p
      · simp [litCIcap, hc] at h
        obtain ⟨a, hrec, hm⟩ := h
        obtain ⟨happ, hsw⟩ := ih cs a r hrec
        subst hm
        simp [happ, startsWithCI, hc, hsw]
      · simp [litCIcap, hc] at h

theorem litCScap_spec : ∀ (s l m r : List Char), litCScap s l = some (m, r) →
    m ++ r = l ∧ startsWithCI s l = true := by
  intro s
  induction s with
  | nil =>
    intro l m r h
    simp [litCScap] at h
    simp [h.1, h.2, startsWithCI]
  | cons p ps ih =>
    intro l m r h
    cases l with
    | nil => simp [litCScap] at h
    | cons c cs =>
      by_cases hc : c = p
      · simp [litCScap, hc] at h
        obtain ⟨a, hrec, hm⟩ := h
        obtain ⟨happ, hsw⟩ := ih cs a r hrec
        subst hm hc
        simp [happ, startsWithCI, hsw]
      · simp [litCScap, hc] at h

theorem sp1cap_spec : ∀ (l m r : List Char), sp1cap l = some (m, r) → m ++ r = l := by
  intro l m r h
  cases l with
  | nil => simp [sp1cap] at h
  | cons c cs =>
    by_cases hc : isPySpace c
    · simp [sp1cap, hc] at h
      obtain ⟨hm, hr⟩ := h
      subst hm hr
      simp [List.takeWhile_append_dropWhile]
    · simp [sp1cap, hc] at h

theorem identCap_spec : ∀ (l m r : List Char), identCap l = some (m, r) → m ++ r = l := by
  intro l m r h
  cases l with
  | nil => simp [identCap] at h
  | cons c cs =>
    by_cases hc : isIdentStartC c
    · simp [identCap, hc] at h
      obtain ⟨hm, hr⟩ := h
      subst hm hr
      simp [List.takeWhile_append_dropWhile]
    · simp [identCap, hc] at h

theorem startsWithCI_append_left : ∀ (s t l : List Char),
    startsWithCI (s ++ t) l = true → startsWithCI s l = true := by
  intro s
  induction s with
  | nil => intro t l _; simp [startsWithCI]
  | cons p ps ih =>
    intro t l h
    cases l with
    | nil => simp [startsWithCI] at h
    | cons c cs =>
      simp [startsWithCI] at h ⊢
      exact ⟨h.1, ih t cs h.2⟩

theorem containsTokCI_of_sw {tok l : List Char} (h : startsWithCI tok l = true) :
    containsTokCI tok l = true := by
  cases l with
  | nil => simpa [containsTokCI] using h
  | cons c cs => simp [containsTokCI, h]

theorem containsTokCI_append_right {tok l : List Char} (t : List Char)
    (h : containsTokCI tok l = true) : containsTokCI tok (t ++ l) = true := by
  induction t with
  | nil => simpa using h
  | cons c cs ih => simp [containsTokCI, ih]

theorem containsTokCI_cons_false {tok : List Char} {c : Char} {cs : List Char}
    (h : containsTokCI tok (c :: cs) = false) : containsTokCI tok cs = false := by
  simp [containsTokCI] at h
  exact h.2

theorem sw_pubTok_of_pubDot {l : List Char} (h : startsWithCI pubDot l = true) :
    startsWithCI pubTok l = true :=
  startsWithCI_append_left pubTok ['.'] l h

/-- A successful flattened-pattern match whose pattern mentions the literal
`public.` implies the text contains the token `public` (case-insensitively).
-/
theorem matchSimple_pub : ∀ (ps : List PatEl) (l : List Char)
    (caps : List (List Char)) (con rest : List Char),
    matchSimple ps l = some (caps, con, rest) →
    (PatEl.litCI pubDot ∈ ps ∨ PatEl.litCS pubDot ∈ ps) →
    containsTokCI pubTok l = true := by
  intro ps
  induction ps with
  | nil =>
    intro l caps con rest _ hmem
    simp at hmem
  | cons e ps ih =>
    intro l caps con rest h hmem
    cases e with
    | litCI s =>
      cases hs : litCIcap s l with
      | none => simp [matchSimple, hs] at h
      | some pr =>
        obtain ⟨m, r⟩ := pr
        obtain ⟨happ, hsw⟩ := litCIcap_spec s l m r hs
        rcases hmem with hmem | hmem
        · rcases List.mem_cons.mp hmem with heq | hmem
          · injection heq with hsd
            subst hsd
            exact containsTokCI_of_sw (sw_pubTok_of_pubDot hsw)
          · cases hr : matchSimple ps r with
            | none => simp [matchSimple, hs, hr] at h
            | some x =>
              obtain ⟨caps1, con1, rest1⟩ := x
              have hc := ih r caps1 con1 rest1 hr (Or.inl hmem)
              rw [← happ]
              exact containsTokCI_append_right m hc
        · have hmem : PatEl.litCS pubDot ∈ ps := by
            rcases List.mem_cons.mp hmem with heq | hmem
            · exact absurd heq (by intro hx; cases hx)
            · exact hmem
          cases hr : matchSimple ps r with
          | none => simp [matchSimple, hs, hr] at h
          | some x =>
            obtain ⟨caps1, con1, rest1⟩ := x
            have hc := ih r caps1 con1 rest1 hr (Or.inr hmem)
            rw [← happ]
            exact containsTokCI_append_right m hc
    | litCS s =>
      cases hs : litCScap s l with
      | none => simp [matchSimple, hs] at h
      | some pr =>
        obtain ⟨m, r⟩ := pr
        obtain ⟨happ, hsw⟩ := litCScap_spec s l m r hs
        rcases hmem with hmem | hmem
        · have hmem : PatEl.litCI pubDot ∈ ps := by
            rcases List.mem_cons.mp hmem with heq | hmem
            · exact absurd heq (by intro hx; cases hx)
            · exact hmem
          cases hr : matchSimple ps r with
          | none => simp [matchSimple, hs, hr] at h
          | some x =>
            obtain ⟨caps1, con1, rest1⟩ := x
            have hc := ih r caps1 con1 rest1 hr (Or.inl hmem)
            rw [← happ]
            exact containsTokCI_append_right m hc
        · rcases List.mem_cons.mp hmem with heq | hmem
          · injection heq with hsd
            subst hsd
            exact containsTokCI_of_sw (sw_pubTok_of_pubDot hsw)
          · cases hr : matchSimple ps r with
            | none => simp [matchSimple, hs, hr] at h
            | some x =>
              obtain ⟨caps1, con1, rest1⟩ := x
              have hc := ih r caps1 con1 rest1 hr (Or.inr hmem)
              rw [← happ]
              exact containsTokCI_append_right m hc
    | ws1 =>
      have hmem : PatEl.litCI pubDot ∈ ps ∨ PatEl.litCS pubDot ∈ ps := by
        rcases hmem with hmem | hmem
        · rcases List.mem_cons.mp hmem with heq | hmem
          · exact absurd heq (by intro hx; cases hx)
          · exact Or.inl hmem
        · rcases List.mem_cons.mp hmem with heq | hmem
          · exact absurd heq (by intro hx; cases hx)
          · exact Or.inr hmem
      cases hs : sp1cap l with
      | none => simp [matchSimple, hs] at h
      | some pr =>
        obtain ⟨m, r⟩ := pr
        have happ := sp1cap_spec l m r hs
        cases hr : matchSimple ps r with
        | none => simp [matchSimple, hs, hr] at h
        | some x =>
          obtain ⟨caps1, con1, rest1⟩ := x
          have hc := ih r caps1 con1 rest1 hr hmem
          rw [← happ]
          exact containsTokCI_append_right m hc
    | capIdent =>
      have hmem : PatEl.litCI pubDot ∈ ps ∨ PatEl.litCS pubDot ∈ ps := by
        rcases hmem with hmem | hmem
        · rcases List.mem_cons.mp hmem with heq | hmem
          · exact absurd heq (by intro hx; cases hx)
          · exact Or.inl hmem
        · rcases List.mem_cons.mp hmem with heq | hmem
          · exact absurd heq (by intro hx; cases hx)
          · exact Or.inr hmem
      cases hs : identCap l with
      | none => simp [matchSimple, hs] at h
      | some pr =>
        obtain ⟨m, r⟩ := pr
        have happ := identCap_spec l m r hs
        cases hr : matchSimple ps r with
        | none => simp [matchSimple, hs, hr] at h
        | some x =>
          obtain ⟨caps1, con1, rest1⟩ := x
          have hc := ih r caps1 con1 rest1 hr hmem
          rw [← happ]
          exact containsTokCI_append_right m hc
    | capLit s =>
      have hmem : PatEl.litCI pubDot ∈ ps ∨ PatEl.litCS pubDot ∈ ps := by
        rcases hmem with hmem | hmem
        · rcases List.mem_cons.mp hmem with heq | hmem
          · exact absurd heq (by intro hx; cases hx)
          · exact Or.inl hmem
        · rcases List.mem_cons.mp hmem with heq | hmem
          · exact absurd heq (by intro hx; cases hx)
          · exact Or.inr hmem
      cases hs : litCIcap s l with
      | none => simp [matchSimple, hs] at h
      | some pr =>
        obtain ⟨m, r⟩ := pr
        obtain ⟨happ, _⟩ := litCIcap_spec s l m r hs
        cases hr : matchSimple ps r with
        | none => simp [matchSimple, hs, hr] at h
        | some x =>
          obtain ⟨caps1, con1, rest1⟩ := x
          have hc := ih r caps1 con1 rest1 hr hmem
          rw [← happ]
          exact containsTokCI_append_right m hc
    | capLitWs s =>
      have hmem : PatEl.litCI pubDot ∈ ps ∨ PatEl.litCS pubDot ∈ ps := by
        rcases hmem with hmem | hmem
        · rcases List.mem_cons.mp hmem with heq | hmem
          · exact absurd heq (by intro hx; cases hx)
          · exact Or.inl hmem
        · rcases List.mem_cons.mp hmem with heq | hmem
          · exact absurd heq (by intro hx; cases hx)
          · exact Or.inr hmem
      cases hs : litCIcap s l with
      | none => simp [matchSimple, hs] at h
      | some pr =>
        obtain ⟨m, r⟩ := pr
        obtain ⟨happ, _⟩ := litCIcap_spec s l m r hs
        cases hw : sp1cap r with
        | none => simp [matchSimple, hs, hw] at h
        | some pw =>
          obtain ⟨w, r1⟩ := pw
          have happw := sp1cap_spec r w r1 hw
          cases hr : matchSimple ps r1 with
          | none => simp [matchSimple, hs, hw, hr] at h
          | some x =>
            obtain ⟨caps1, con1, rest1⟩ := x
            have hc := ih r1 caps1 con1 rest1 hr hmem
            have : containsTokCI pubTok r = true := by
              rw [← happw]
              exact containsTokCI_append_right w hc
            rw [← happ]
            exact containsTokCI_append_right m this

theorem tryAlts_pub : ∀ (alts : List (List PatEl × List TplEl)) (l : List Char) x,
    tryAlts alts l = some x →
    (∀ pt ∈ alts, PatEl.litCI pubDot ∈ pt.1 ∨ PatEl.litCS pubDot ∈ pt.1) →
    containsTokCI pubTok l = true := by
  intro alts
  induction alts with
  | nil => intro l x h _; simp [tryAlts] at h
  | cons pt alts ih =>
    intro l x h hall
    obtain ⟨pat, tpl⟩ := pt
    cases hm : matchSimple pat l with
    | some y =>
      obtain ⟨caps, con, rest⟩ := y
      exact matchSimple_pub pat l caps con rest hm (hall (pat, tpl) (List.mem_cons_self _ _))
    | none =>
      simp [tryAlts, hm] at h
      exact ih l x h (fun q hq => hall q (List.mem_cons_of_mem _ hq))

theorem mkMatcher_pub (ru : SubRule)
    (hall : ∀ pt ∈ ru.alts, PatEl.litCI pubDot ∈ pt.1 ∨ PatEl.litCS pubDot ∈ pt.1) :
    ∀ prev l x, mkMatcher ru prev l = some x → containsTokCI pubTok l = true := by
  intro prev l x h
  by_cases hb : atB prev = true
  · simp [mkMatcher, hb] at h
    exact tryAlts_pub ru.alts l x h hall
  · simp [mkMatcher, hb] at h

theorem lazySearch_pub : ∀ (l acc : List Char) x, lazySearch acc l = some x →
    containsTokCI pubTok l = true := by
  intro l
  induction l with
  | nil => intro acc x h; simp [lazySearch] at h
  | cons c cs ih =>
    intro acc x h
    by_cases hn : c = '\n'
    · simp [lazySearch, hn] at h
    · cases hA : matchSimple grantTailA cs with
      | some y =>
        obtain ⟨caps, con, rest⟩ := y
        have hc := matchSimple_pub _ _ _ _ _ hA (by decide)
        simp [containsTokCI, hc]
      | none =>
        cases hB : matchSimple grantTailB cs with
        | some y =>
          obtain ⟨caps, con, rest⟩ := y
          have hc := matchSimple_pub _ _ _ _ _ hB (by decide)
          simp [containsTokCI, hc]
        | none =>
          simp [lazySearch, hn, hA, hB] at h
          have hc := ih (acc ++ [c]) x h
          simp [containsTokCI, hc]

theorem mGrantRevoke_pub : ∀ prev l x, mGrantRevoke prev l = some x →
    containsTokCI pubTok l = true := by
  intro prev l x h
  by_cases hb : atB prev = true
  · unfold mGrantRevoke at h
    rw [if_pos hb] at h
    cases hg :
        (match litCIcap "GRANT".data l with
         | some x => some x
         | none => litCIcap "REVOKE".data l) with
    | none => rw [hg] at h; simp at h
    | some pr =>
      rw [hg] at h
      obtain ⟨g1, r1⟩ := pr
      have happ1 : g1 ++ r1 = l := by
        cases hG : litCIcap "GRANT".data l with
        | some q =>
          rw [hG] at hg
          cases hg
          exact (litCIcap_spec _ _ _ _ hG).1
        | none =>
          rw [hG] at hg
          exact (litCIcap_spec _ _ _ _ hg).1
      cases hw : sp1cap r1 with
      | none => simp [hw] at h
      | some pw =>
        obtain ⟨w1, r2⟩ := pw
        have happ2 := sp1cap_spec _ _ _ hw
        cases hz : lazySearch [] r2 with
        | none => simp [hw, hz] at h
        | some z =>
          have hc2 := lazySearch_pub r2 [] z hz
          have hc1 : containsTokCI pubTok r1 = true := by
            rw [← happ2]
            exact containsTokCI_append_right w1 hc2
          rw [← happ1]
          exact containsTokCI_append_right g1 hc1
  · unfold mGrantRevoke at h
    rw [if_neg hb] at h
    simp at h

theorem mCreateTable_pub : ∀ prev l x, mCreateTable prev l = some x →
    containsTokCI pubTok l = true := by
  intro prev l x h
  unfold mCreateTable at h
  exact mkMatcher_pub _ (by decide) prev l x h

theorem mInsertInto_pub : ∀ prev l x, mInsertInto prev l = some x →
    containsTokCI pubTok l = true := by
  intro prev l x h
  unfold mInsertInto at h
  exact mkMatcher_pub _ (by decide) prev l x h

theorem mAlterTable_pub : ∀ prev l x, mAlterTable prev l = some x →
    containsTokCI pubTok l = true := by
  intro prev l x h
  unfold mAlterTable at h
  exact mkMatcher_pub _ (by decide) prev l x h

theorem mCreateIndex_pub : ∀ prev l x, mCreateIndex prev l = some x →
    containsTokCI pubTok l = true := by
  intro prev l x h
  unfold mCreateIndex at h
  exact mkMatcher_pub _ (by decide) prev l x h

theorem mCreateSequence_pub : ∀ prev l x, mCreateSequence prev l = some x →
    containsTokCI pubTok l = true := by
  intro prev l x h
  unfold mCreateSequence at h
  exact mkMatcher_pub _ (by decide) prev l x h

theorem mAlterSequence_pub : ∀ prev l x, mAlterSequence prev l = some x →
    containsTokCI pubTok l = true := by
  intro prev l x h
  unfold mAlterSequence at h
  exact mkMatcher_pub _ (by decide) prev l x h

theorem mCopyStmt_pub : ∀ prev l x, mCopyStmt prev l = some x →
    containsTokCI pubTok l = true := by
  intro prev l x h
  unfold mCopyStmt at h
  exact mkMatcher_pub _ (by decide) prev l x h

theorem mReferences_pub : ∀ prev l x, mReferences prev l = some x →
    containsTokCI pubTok l = true := by
  intro prev l x h
  unfold mReferences at h
  exact mkMatcher_pub _ (by decide) prev l x h

theorem mSetval_pub : ∀ prev l x, mSetval prev l = some x →
    containsTokCI pubTok l = true := by
  intro prev l x h
  unfold mSetval at h
  exact mkMatcher_pub _ (by decide) prev l x h

theorem mDropStmt_pub : ∀ prev l x, mDropStmt prev l = some x →
    containsTokCI pubTok l = true := by
  intro prev l x h
  unfold mDropStmt at h
  exact mkMatcher_pub _ (by decide) prev l x h

theorem mTriggerOn_pub : ∀ prev l x, mTriggerOn prev l = some x →
    containsTokCI pubTok l = true := by
  intro prev l x h
  unfold mTriggerOn at h
  exact mkMatcher_pub _ (by decide) prev l x h

theorem mCatchAll_pub : ∀ prev l x, mCatchAll prev l = some x →
    containsTokCI pubTok l = true := by
  intro prev l x h
  unfold mCatchAll at h
  exact mkMatcher_pub _ (by decide) prev l x h

theorem subMatchers_pub : ∀ m ∈ subMatchers, ∀ prev l x, m prev l = some x →
    containsTokCI pubTok l = true := by
  intro m hm
  simp [subMatchers] at hm
  rcases hm with rfl | rfl | rfl | rfl | rfl | rfl | rfl | rfl | rfl | rfl | rfl | rfl | rfl
  · exact mCreateTable_pub
  · exact mInsertInto_pub
  · exact mAlterTable_pub
  · exact mCreateIndex_pub
  · exact mCreateSequence_pub
  · exact mAlterSequence_pub
  · exact mCopyStmt_pub
  · exact mReferences_pub
  · exact mSetval_pub
  · exact mDropStmt_pub
  · exact mGrantRevoke_pub
  · exact mTriggerOn_pub
  · exact mCatchAll_pub

/-- A substitution whose pattern requires `public` leaves a line without the
token untouched, for any fuel and previous-character context. -/
theorem subAllF_id (m : Matcher)
    (hm : ∀ prev l x, m prev l = some x → containsTokCI pubTok l = true) :
    ∀ (fuel : Nat) (prev : Option Char) (l : List Char),
    containsTokCI pubTok l = false → subAllF m fuel prev l = l := by
  intro fuel
  induction fuel with
  | zero => intro prev l _; rfl
  | succ n ih =>
    intro prev l hl
    cases l with
    | nil => rfl
    | cons c cs =>
      cases hmc : m prev (c :: cs) with
      | some x => exact absurd (hm _ _ _ hmc) (by simp [hl])
      | none =>
        simp only [subAllF, hmc]
        rw [ih (some c) cs (containsTokCI_cons_false hl)]

theorem runSub_id (m : Matcher)
    (hm : ∀ prev l x, m prev l = some x → containsTokCI pubTok l = true)
    (l : List Char) (hl : containsTokCI pubTok l = false) : runSub m l = l :=
  subAllF_id m hm l.length none l hl

/-- The full substitution chain is the identity on a line that does not
contain the token `public` (case-insensitively). -/
theorem applySubs_id : ∀ (l : List Char), containsTokCI pubTok l = false →
    applySubs l = l := by
  have key : ∀ (ms : List Matcher),
      (∀ m ∈ ms, ∀ prev l x, m prev l = some x → containsTokCI pubTok l = true) →
      ∀ l, containsTokCI pubTok l = false →
      ms.foldl (fun acc m => runSub m acc) l = l := by
    intro ms
    induction ms with
    | nil => intro _ l _; rfl
    | cons m ms ih =>
      intro hall l hl
      have h1 : runSub m l = l := runSub_id m (hall m (List.mem_cons_self _ _)) l hl
      simp only [List.foldl, h1]
      exact ih (fun q hq => hall q (List.mem_cons_of_mem _ hq)) l hl
  intro l hl
  exact key subMatchers subMatchers_pub l hl

/-! ## Replay of the cleaner on its own output -/

theorem cleanLines_idem : ∀ (ls : List (List Char)) (st : Bool),
    (∀ l ∈ ls, containsTokCI pubTok l = false) →
    cleanLines true st (cleanLines true st ls) = cleanLines true st ls := by
  intro ls
  induction ls with
  | nil => intro st _; rfl
  | cons l ls ih =>
    intro st hall
    have hl : containsTokCI pubTok l = false := hall l (List.mem_cons_self _ _)
    have hls : ∀ q ∈ ls, containsTokCI pubTok q = false :=
      fun q hq => hall q (List.mem_cons_of_mem _ hq)
    have hsub : runSub mCopyStmt l = l := runSub_id _ mCopyStmt_pub l hl
    have happly : applySubs l = l := applySubs_id l hl
    by_cases hcs : copyStartB l = true
    · simp only [cleanLines, hcs, if_true, hsub]
      rw [ih true hls]
    · by_cases hce : copyEndB l = true
      · simp only [cleanLines, hcs, hce, if_true, if_false, Bool.false_eq_true]
        rw [ih false hls]
      · cases st with
        | true =>
          simp only [cleanLines, hcs, hce, if_true, if_false, Bool.false_eq_true]
          rw [ih true hls]
        | false =>
          by_cases hsk : shouldSkip l = true
          · simp only [cleanLines, hcs, hce, hsk, if_true, if_false, Bool.false_eq_true]
            exact ih false hls
          · by_cases hst : stripNonEmpty l = true
            · simp only [cleanLines, hcs, hce, hsk, hst, happly, if_true, if_false,
                Bool.false_eq_true]
              rw [ih false hls]
            · simp only [cleanLines, hcs, hce, hsk, hst, happly, if_true, if_false,
                Bool.false_eq_true]
              exact ih false hls

theorem cleanLines_mem : ∀ (ls : List (List Char)) (st : Bool) (q : List Char),
    (∀ l ∈ ls, containsTokCI pubTok l = false) →
    q ∈ cleanLines true st ls → q ∈ ls := by
  intro ls
  induction ls with
  | nil => intro st q _ hq; simp [cleanLines] at hq
  | cons l ls ih =>
    intro st q hall hq
    have hl : containsTokCI pubTok l = false := hall l (List.mem_cons_self _ _)
    have hls : ∀ p ∈ ls, containsTokCI pubTok p = false :=
      fun p hp => hall p (List.mem_cons_of_mem _ hp)
    have hsub : runSub mCopyStmt l = l := runSub_id _ mCopyStmt_pub l hl
    have happly : applySubs l = l := applySubs_id l hl
    by_cases hcs : copyStartB l = true
    · simp only [cleanLines, hcs, if_true, hsub, List.mem_cons] at hq
      rcases hq with rfl | hq
      · exact List.mem_cons_self _ _
      · exact List.mem_cons_of_mem _ (ih true q hls hq)
    · by_cases hce : copyEndB l = true
      · simp only [cleanLines, hcs, hce, if_true, if_false, Bool.false_eq_true,
          List.mem_cons] at hq
        rcases hq with rfl | hq
        · exact List.mem_cons_self _ _
        · exact List.mem_cons_of_mem _ (ih false q hls hq)
      · cases st with
        | true =>
          simp only [cleanLines, hcs, hce, if_true, if_false, Bool.false_eq_true,
            List.mem_cons] at hq
          rcases hq with rfl | hq
          · exact List.mem_cons_self _ _
          · exact List.mem_cons_of_mem _ (ih true q hls hq)
        | false =>
          by_cases hsk : shouldSkip l = true
          · simp only [cleanLines, hcs, hce, hsk, if_true, if_false,
              Bool.false_eq_true] at hq
            exact List.mem_cons_of_mem _ (ih false q hls hq)
          · by_cases hst : stripNonEmpty l = true
            · simp only [cleanLines, hcs, hce, hsk, hst, happly, if_true, if_false,
                Bool.false_eq_true, List.mem_cons] at hq
              rcases hq with rfl | hq
              · exact List.mem_cons_self _ _
              · exact List.mem_cons_of_mem _ (ih false q hls hq)
            · simp only [cleanLines, hcs, hce, hsk, hst, happly, if_true, if_false,
                Bool.false_eq_true] at hq
              exact List.mem_cons_of_mem _ (ih false q hls hq)

/-! ## `split('\n')` / `'\n'.join` round trip -/

theorem splitNl_ne_nil : ∀ (cs : List Char), splitNl cs ≠ [] := by
  intro cs
  cases cs with
  | nil => simp [splitNl]
  | cons c cs =>
    by_cases h : c = '\n'
    · simp [splitNl, h]
    · simp only [splitNl, h, if_false]
      cases splitNl cs with
      | nil => simp
      | cons l ls => simp

theorem splitNl_nonl : ∀ (cs : List Char) (l : List Char), l ∈ splitNl cs → '\n' ∉ l := by
  intro cs
  induction cs with
  | nil =>
    intro l hl
    simp [splitNl] at hl
    simp [hl]
  | cons c cs ih =>
    intro l hl
    by_cases h : c = '\n'
    · simp only [splitNl, h, if_true, List.mem_cons] at hl
      rcases hl with rfl | hl
      · simp
      · exact ih l hl
    · simp only [splitNl, h, if_false] at hl
      cases hs : splitNl cs with
      | nil => exact absurd hs (splitNl_ne_nil cs)
      | cons q qs =>
        rw [hs] at hl
        rcases List.mem_cons.mp hl with rfl | hl
        · intro hm
          rcases List.mem_cons.mp hm with heq | hm
          · exact h heq.symm
          · exact ih q (hs ▸ List.mem_cons_self _ _) hm
        · exact ih l (hs ▸ List.mem_cons_of_mem _ hl)

theorem splitNl_of_nonl : ∀ (l : List Char), '\n' ∉ l → splitNl l = [l] := by
  intro l
  induction l with
  | nil => intro _; rfl
  | cons c cs ih =>
    intro h
    have hc : ¬ c = '\n' := fun hx => h (hx ▸ List.mem_cons_self _ _)
    have hcs : '\n' ∉ cs := fun hx => h (List.mem_cons_of_mem _ hx)
    simp only [splitNl, hc, if_false, ih hcs]

theorem splitNl_append : ∀ (l r : List Char), '\n' ∉ l →
    splitNl (l ++ '\n' :: r) = l :: splitNl r := by
  intro l
  induction l with
  | nil => intro r _; simp [splitNl]
  | cons c cs ih =>
    intro r h
    have hc : ¬ c = '\n' := fun hx => h (hx ▸ List.mem_cons_self _ _)
    have hcs : '\n' ∉ cs := fun hx => h (List.mem_cons_of_mem _ hx)
    simp only [List.cons_append, splitNl, hc, if_false]
    rw [show cs.append ('\n' :: r) = cs ++ '\n' :: r from rfl, ih r hcs]

theorem joinNl_splitNl : ∀ (ls : List (List Char)), ls ≠ [] →
    (∀ l ∈ ls, '\n' ∉ l) → splitNl (joinNl ls) = ls := by
  intro ls
  induction ls with
  | nil => intro h _; exact absurd rfl h
  | cons l ls ih =>
    intro _ hall
    cases ls with
    | nil =>
      simp only [joinNl]
      exact splitNl_of_nonl l (hall l (List.mem_cons_self _ _))
    | cons l2 ls2 =>
      have h1 : joinNl (l :: l2 :: ls2) = l ++ '\n' :: joinNl (l2 :: ls2) := rfl
      rw [h1, splitNl_append l _ (hall l (List.mem_cons_self _ _))]
      rw [ih (by simp) (fun q hq => hall q (List.mem_cons_of_mem _ hq))]

/-! ## Non-blankness of the cleaner's output -/

theorem lowerC_space {c : Char} (h : isPySpace c = true) : lowerC c = c := by
  simp [isPySpace] at h
  rcases h with ((((rfl | rfl) | rfl) | rfl) | rfl) | rfl <;> decide

theorem copyStartB_nonempty (l : List Char) (h : copyStartB l = true) :
    stripNonEmpty l = true := by
  cases l with
  | nil => exact absurd h (by decide)
  | cons c cs =>
    have hc : lowerC c = lowerC 'C' := by
      by_contra hc
      have hfalse : copyStartB (c :: cs) = false := by
        unfold copyStartB
        rw [show ("COPY".data : List Char) = 'C' :: "OPY".data from rfl]
        simp [matchSimple, litCIcap, hc]
      rw [hfalse] at h
      cases h
    cases hsp : isPySpace c with
    | false => simp [stripNonEmpty, hsp]
    | true =>
      exfalso
      have h1 : lowerC c = c := lowerC_space hsp
      rw [h1] at hc
      rw [hc] at hsp
      exact absurd hsp (by decide)

theorem copyEndB_nonempty (l : List Char) (h : copyEndB l = true) :
    stripNonEmpty l = true := by
  cases l with
  | nil => exact absurd h (by decide)
  | cons a l1 =>
    cases l1 with
    | nil => simp [copyEndB] at h
    | cons b r =>
      simp only [copyEndB, Bool.and_eq_true, beq_iff_eq] at h
      obtain ⟨⟨ha, hb⟩, hall⟩ := h
      subst ha
      unfold stripNonEmpty
      exact List.any_eq_true.mpr ⟨'\\', List.mem_cons_self _ _, by decide⟩

theorem cleanLines_head : ∀ (ls : List (List Char)),
    (∀ l ∈ ls, containsTokCI pubTok l = false) →
    ∀ (q : List Char) (rest : List (List Char)),
    cleanLines true false ls = q :: rest → stripNonEmpty q = true := by
  intro ls
  induction ls with
  | nil => intro _ q rest h; cases h
  | cons l ls ih =>
    intro hall q rest h
    have hl := hall l (List.mem_cons_self _ _)
    have hls : ∀ p ∈ ls, containsTokCI pubTok p = false :=
      fun p hp => hall p (List.mem_cons_of_mem _ hp)
    have hsub : runSub mCopyStmt l = l := runSub_id _ mCopyStmt_pub l hl
    have happly : applySubs l = l := applySubs_id l hl
    by_cases hcs : copyStartB l = true
    · simp only [cleanLines, hcs, if_true, hsub] at h
      have h1 : l = q := (List.cons_eq_cons.mp h).1
      exact h1 ▸ copyStartB_nonempty l hcs
    · by_cases hce : copyEndB l = true
      · simp only [cleanLines, hcs, hce, if_true, if_false, Bool.false_eq_true] at h
        have h1 : l = q := (List.cons_eq_cons.mp h).1
        exact h1 ▸ copyEndB_nonempty l hce
      · by_cases hsk : shouldSkip l = true
        · simp only [cleanLines, hcs, hce, hsk, if_true, if_false,
            Bool.false_eq_true] at h
          exact ih hls q rest h
        · by_cases hst : stripNonEmpty l = true
          · simp only [cleanLines, hcs, hce, hsk, hst, happly, if_true, if_false,
              Bool.false_eq_true] at h
            have h1 : l = q := (List.cons_eq_cons.mp h).1
            exact h1 ▸ hst
          · simp only [cleanLines, hcs, hce, hsk, hst, happly, if_true, if_false,
              Bool.false_eq_true] at h
            exact ih hls q rest h

theorem all_space_false_of_strip (q t : List Char) (hq : stripNonEmpty q = true) :
    (q ++ t).all isPySpace = false := by
  rcases List.any_eq_true.mp hq with ⟨c, hc, hcp⟩
  cases hall : (q ++ t).all isPySpace with
  | false => rfl
  | true =>
    have := List.all_eq_true.mp hall c (List.mem_append_left t hc)
    simp [this] at hcp

/-- The cleaning pass is idempotent on content none of whose lines contains
the schema-qualifier token `public` (case-insensitively). -/
theorem cleanSqlContentL_idem (content : List Char)
    (h : ∀ l ∈ splitNl content, containsTokCI pubTok l = false) :
    cleanSqlContentL true (cleanSqlContentL true content) =
      cleanSqlContentL true content := by
  by_cases ha : content.all isPySpace = true
  · unfold cleanSqlContentL
    simp [ha]
  · have hout : cleanSqlContentL true content =
        joinNl (cleanLines true false (splitNl content)) := by
      unfold cleanSqlContentL
      simp [ha]
    cases hLc : cleanLines true false (splitNl content) with
    | nil =>
      rw [hout, hLc]
      unfold cleanSqlContentL
      simp [joinNl]
    | cons q qs =>
      have hq : stripNonEmpty q = true := cleanLines_head _ h q qs hLc
      have hmem : ∀ p ∈ cleanLines true false (splitNl content), p ∈ splitNl content :=
        fun p hp => cleanLines_mem _ false p h hp
      have hnl : ∀ p ∈ cleanLines true false (splitNl content), '\n' ∉ p :=
        fun p hp => splitNl_nonl content p (hmem p hp)
      have hjoin : (joinNl (cleanLines true false (splitNl content))).all isPySpace = false := by
        rw [hLc]
        cases qs with
        | nil =>
          have : joinNl [q] = q ++ [] := by simp [joinNl]
          rw [this]
          exact all_space_false_of_strip q [] hq
        | cons q2 qs2 =>
          have : joinNl (q :: q2 :: qs2) = q ++ '\n' :: joinNl (q2 :: qs2) := rfl
          rw [this]
          exact all_space_false_of_strip q _ hq
      have hsplit : splitNl (joinNl (cleanLines true false (splitNl content))) =
          cleanLines true false (splitNl content) := by
        apply joinNl_splitNl
        · rw [hLc]; simp
        · exact hnl
      have h2 : cleanSqlContentL true (joinNl (cleanLines true false (splitNl content))) =
          joinNl (cleanLines true false (splitNl content)) := by
        unfold cleanSqlContentL
        rw [if_neg (by rw [hjoin]; simp)]
        rw [hsplit, cleanLines_idem (splitNl content) false h]
      rw [hout, h2]

/-! ## Symbolic evaluation helpers for the substitution engine -/

theorem takeWhile_append_of_all (p : Char → Bool) (as bs : List Char)
    (ha : as.all p = true)
    (hb : bs = [] ∨ ∃ b bs2, bs = b :: bs2 ∧ p b = false) :
    (as ++ bs).takeWhile p = as ∧ (as ++ bs).dropWhile p = bs := by
  induction as with
  | nil =>
    rcases hb with rfl | ⟨b, bs2, rfl, hpb⟩
    · simp
    · simp [List.takeWhile, List.dropWhile, hpb]
  | cons c cs ih =>
    simp only [List.all_cons, Bool.and_eq_true] at ha
    obtain ⟨hc, hcs⟩ := ha
    obtain ⟨h1, h2⟩ := ih hcs
    simp [List.takeWhile, List.dropWhile, hc, h1, h2]

theorem identCap_append (idt rest : List Char) (hid : identOk idt = true)
    (hrest : headNotWord rest = true) :
    identCap (idt ++ rest) = some (idt, rest) := by
  cases idt with
  | nil => simp [identOk] at hid
  | cons c cs =>
    simp only [identOk, Bool.and_eq_true] at hid
    obtain ⟨hc, hcs⟩ := hid
    have hb : rest = [] ∨ ∃ b bs2, rest = b :: bs2 ∧ isWordC b = false := by
      cases rest with
      | nil => exact Or.inl rfl
      | cons b bs2 =>
        refine Or.inr ⟨b, bs2, rfl, ?_⟩
        simp only [headNotWord, Bool.not_eq_true'] at hrest
        exact hrest
    obtain ⟨h1, h2⟩ := takeWhile_append_of_all isWordC cs rest hcs hb
    simp only [List.cons_append, identCap, hc, if_true, h1, h2]

theorem subAllF_step (m : Matcher) (fuel : Nat) (prev : Option Char) (c : Char)
    (cs rep con rest : List Char)
    (hm : m prev (c :: cs) = some (rep, con, rest))
    (hlen : rest.length ≤ cs.length) :
    subAllF m (fuel + 1) prev (c :: cs) =
      rep ++ subAllF m fuel (some (con.getLastD c)) rest := by
  simp [subAllF, hm, hlen]

/-! ## Lemmas about the writer's stats and document -/

theorem statsTables_mem_keys (env : WriteEnv) : ∀ (ts : List String) (T : String)
    (s : BTableStats), (T, s) ∈ statsTables env ts → T ∈ ts := by
  intro ts
  induction ts with
  | nil => intro T s h; simp [statsTables] at h
  | cons t ts ih =>
    intro T s h
    by_cases hex : env.excluded.contains t = true
    · simp only [statsTables, hex, if_true] at h
      exact List.mem_cons_of_mem _ (ih T s h)
    · simp only [statsTables, hex, if_false, Bool.false_eq_true] at h
      cases ho : tableStatsOf (env.outcome t) with
      | none =>
        rw [ho] at h
        exact List.mem_cons_of_mem _ (ih T s h)
      | some q =>
        rw [ho] at h
        rcases List.mem_cons.mp h with heq | h
        · rw [(Prod.mk.injEq _ _ _ _).mp heq |>.1]
          exact List.mem_cons_self _ _
        · exact List.mem_cons_of_mem _ (ih T s h)

theorem lookup_some_mem {T : String} {s : BTableStats} :
    ∀ (l : List (String × BTableStats)), l.lookup T = some s → (T, s) ∈ l := by
  intro l
  induction l with
  | nil => intro h; simp [List.lookup] at h
  | cons p l ih =>
    intro h
    obtain ⟨k, v⟩ := p
    by_cases hk : T = k
    · subst hk
      simp only [List.lookup, beq_self_eq_true] at h
      rw [Option.some_inj.mp h]
      exact List.mem_cons_self _ _
    · have hb : (T == k) = false := by simp [hk]
      simp only [List.lookup, hb] at h
      exact List.mem_cons_of_mem _ (ih h)

theorem statsTables_lookup_notmem (env : WriteEnv) (ts : List String) (T : String)
    (hT : T ∉ ts) : (statsTables env ts).lookup T = none := by
  cases hl : (statsTables env ts).lookup T with
  | none => rfl
  | some s =>
    exfalso
    exact hT (statsTables_mem_keys env ts T s (lookup_some_mem _ hl))

theorem statsTables_lookup_err (env : WriteEnv) (B : String) (pl : List String)
    (m : String) (herr : env.outcome B = .err pl m) :
    ∀ (ts : List String), (statsTables env ts).lookup B = none := by
  intro ts
  induction ts with
  | nil => rfl
  | cons t ts ih =>
    by_cases hex : env.excluded.contains t = true
    · simp only [statsTables, hex, if_true]
      exact ih
    · simp only [statsTables, hex, if_false, Bool.false_eq_true]
      by_cases hbt : B = t
      · rw [← hbt, herr]
        simp only [tableStatsOf]
        exact ih
      · cases ho : tableStatsOf (env.outcome t) with
        | none => exact ih
        | some q =>
          have hb : (B == t) = false := by simp [hbt]
          simp only [List.lookup, hb]
          exact ih

theorem statsTables_lookup_ok (env : WriteEnv) : ∀ (ts : List String) (T : String),
    ts.Nodup → T ∈ ts → env.excluded.contains T = false →
    (statsTables env ts).lookup T = tableStatsOf (env.outcome T) := by
  intro ts
  induction ts with
  | nil => intro T _ hT _; simp at hT
  | cons t ts ih =>
    intro T hnd hT hex
    have hnd2 := List.nodup_cons.mp hnd
    by_cases hTt : T = t
    · subst hTt
      simp only [statsTables, hex, if_false, Bool.false_eq_true]
      cases ho : tableStatsOf (env.outcome T) with
      | none => exact statsTables_lookup_notmem env ts T hnd2.1
      | some q =>
        simp only [List.lookup, beq_self_eq_true]
    · have hT2 : T ∈ ts := by
        rcases List.mem_cons.mp hT with h | h
        · exact absurd h hTt
        · exact h
      by_cases hex2 : env.excluded.contains t = true
      · simp only [statsTables, hex2, if_true]
        exact ih T hnd2.2 hT2 hex
      · simp only [statsTables, hex2, if_false, Bool.false_eq_true]
        cases ho : tableStatsOf (env.outcome t) with
        | none => exact ih T hnd2.2 hT2 hex
        | some q =>
          have hb : (T == t) = false := by simp [hTt]
          simp only [List.lookup, hb]
          exact ih T hnd2.2 hT2 hex

theorem sectionLines_infix (p : WriteParams) (env : WriteEnv) (T : String)
    (hT : T ∈ env.tables) (hex : env.excluded.contains T = false) :
    sectionLines p T (env.outcome T) <:+: writeBackupLines p env := by
  obtain ⟨s, t, hst⟩ := List.append_of_mem hT
  unfold writeBackupLines
  rw [hst, List.map_append, List.map_cons, List.flatten_append, List.flatten_cons]
  rw [if_neg (by rw [hex]; simp)]
  refine ⟨headerLines p ++ schemaSetupLines p ++ perfLines p ++
    ["-- ========================================",
     "-- TABLE STRUCTURES AND DATA",
     "-- ========================================",
     ""] ++ (s.map (fun t =>
      if env.excluded.contains t then []
      else sectionLines p t (env.outcome t))).flatten,
    (t.map (fun t =>
      if env.excluded.contains t then []
      else sectionLines p t (env.outcome t))).flatten ++ footerLines p, ?_⟩
  simp [List.append_assoc]

theorem estimateSize_lookup_none (tables excluded : List String)
    (cnt : String → Nat) (T : String) (hex : excluded.contains T = true) :
    (estimateSize tables excluded cnt).lookup T = none := by
  induction tables with
  | nil => rfl
  | cons t ts ih =>
    by_cases he : excluded.contains t = true
    · simp only [estimateSize, he, if_true]
      exact ih
    · have hb : (T == t) = false := by
        cases hBt : T == t with
        | false => rfl
        | true =>
          rw [beq_iff_eq] at hBt
          rw [hBt] at hex
          rw [hex] at he
          exact absurd rfl he
      simp only [estimateSize, he, if_false, Bool.false_eq_true, List.lookup, hb]
      exact ih

/-! ## The section-header line cannot be faked by the writer's other lines -/

theorem sw_self_append : ∀ (s t : List Char), startsWithCS s (s ++ t) = true := by
  intro s t
  induction s with
  | nil => rfl
  | cons c cs ih => simp [startsWithCS, ih]

theorem hdr_sw (T : String) :
    startsWithCS "-- Data for table: ".data (hdrLine T).data = true := by
  have h : (hdrLine T).data = "-- Data for table: ".data ++ T.data := rfl
  rw [h]
  exact sw_self_append _ _

theorem ne_hdr_fixed (T : String) (s : String)
    (hx : startsWithCS "-- Data for table: ".data s.data = false) :
    hdrLine T ≠ s := by
  intro h
  have h3 := hdr_sw T
  rw [h, hx] at h3
  cases h3

theorem ne_hdr_dataPre (T : String) (x : String) (pre suffix : List Char)
    (hdata : x.data = pre ++ suffix)
    (hx : ∀ td : List Char, startsWithCS "-- Data for table: ".data (pre ++ td) = false) :
    hdrLine T ≠ x := by
  intro h
  have h3 := hdr_sw T
  rw [h, hdata, hx suffix] at h3
  cases h3

theorem hdr_inj {U T : String} (h : hdrLine U = hdrLine T) : U = T := by
  have h2 := congrArg String.data h
  have hu : (hdrLine U).data = "-- Data for table: ".data ++ U.data := rfl
  have ht : (hdrLine T).data = "-- Data for table: ".data ++ T.data := rfl
  rw [hu, ht] at h2
  exact String.ext (List.append_cancel_left h2)

theorem hdr_notin_headerLines (p : WriteParams) (T : String) :
    hdrLine T ∉ headerLines p := by
  intro hmem
  unfold headerLines at hmem
  by_cases hih : p.includeHeader = true
  · rw [if_neg (by simp [hih])] at hmem
    have hmeta : ∀ kv : String × String,
        "--   " ++ kv.1 ++ ": " ++ kv.2 ≠ hdrLine T := by
      intro kv
      refine (ne_hdr_dataPre T _ "--   ".data (kv.1.data ++ (": ".data ++ kv.2.data))
        ?_ (fun td => rfl)).symm
      simp [String.data_append, List.append_assoc]
    cases hs : p.schemaName <;> cases hf : p.filtersCount <;>
      by_cases him : p.metadata.isEmpty = true <;>
      simp [hs, hf, him, List.mem_append, List.mem_cons, List.mem_map,
        ne_hdr_fixed T "-- PostgreSQL Database Backup" rfl,
        ne_hdr_fixed T "-- Using COPY format for fast restore" rfl,
        ne_hdr_fixed T "-- Metadata:" rfl,
        ne_hdr_fixed T "" rfl,
        ne_hdr_dataPre T ("-- Generated: " ++ p.generatedTs) "-- Generated: ".data
          p.generatedTs.data rfl (fun td => rfl),
        ne_hdr_dataPre T ("-- Database: " ++ p.dbName) "-- Database: ".data
          p.dbName.data rfl (fun td => rfl),
        hmeta] at hmem <;>
      try
        first
          | exact absurd hmem
              (ne_hdr_dataPre T _ "-- Target schema: ".data _ rfl (fun td => rfl))
          | exact absurd hmem
              (ne_hdr_dataPre T _ "-- Filtered tables: ".data _ rfl (fun td => rfl))
          | exact absurd hmem.1
              (ne_hdr_dataPre T _ "-- Target schema: ".data _ rfl (fun td => rfl))
          | exact absurd hmem.2
              (ne_hdr_dataPre T _ "-- Filtered tables: ".data _ rfl (fun td => rfl))
          | (rcases hmem with h1 | h2
             · exact absurd h1
                 (ne_hdr_dataPre T _ "-- Target schema: ".data _ rfl (fun td => rfl))
             · exact absurd h2
                 (ne_hdr_dataPre T _ "-- Filtered tables: ".data _ rfl (fun td => rfl)))
  · rw [if_pos (by simp [hih])] at hmem
    simp at hmem

theorem hdr_notin_schemaSetupLines (p : WriteParams) (T : String) :
    hdrLine T ∉ schemaSetupLines p := by
  intro hmem
  unfold schemaSetupLines at hmem
  cases hs : p.schemaName with
  | none => rw [hs] at hmem; simp at hmem
  | some s =>
    rw [hs] at hmem
    simp [buildSchemaSetup, List.mem_append, List.mem_cons,
      ne_hdr_fixed T "-- ========================================" rfl,
      ne_hdr_fixed T "-- SCHEMA SETUP" rfl,
      ne_hdr_fixed T "" rfl,
      ne_hdr_dataPre T ("DROP SCHEMA IF EXISTS " ++ s ++ " CASCADE;")
        "DROP SCHEMA IF EXISTS ".data (s.data ++ " CASCADE;".data)
        (by simp [String.data_append, List.append_assoc]) (fun td => rfl),
      ne_hdr_dataPre T ("CREATE SCHEMA " ++ s ++ ";")
        "CREATE SCHEMA ".data (s.data ++ ";".data)
        (by simp [String.data_append, List.append_assoc]) (fun td => rfl),
      ne_hdr_dataPre T ("SET search_path = " ++ s ++ ", public;")
        "SET search_path = ".data (s.data ++ ", public;".data)
        (by simp [String.data_append, List.append_assoc]) (fun td => rfl)] at hmem

theorem hdr_notin_perfLines (p : WriteParams) (T : String) :
    hdrLine T ∉ perfLines p := by
  intro hmem
  unfold perfLines at hmem
  by_cases hdt : p.disableTriggers = true <;> by_cases hdf : p.disableFsync = true <;>
    simp [buildPerformanceSettings, hdt, hdf, List.mem_append, List.mem_cons,
      ne_hdr_fixed T "-- ========================================" rfl,
      ne_hdr_fixed T "-- PERFORMANCE OPTIMIZATIONS" rfl,
      ne_hdr_fixed T "" rfl,
      ne_hdr_fixed T "SET session_replication_role = replica;" rfl,
      ne_hdr_fixed T "SET synchronous_commit = off;" rfl] at hmem

theorem hdr_notin_footerLines (p : WriteParams) (T : String) :
    hdrLine T ∉ footerLines p := by
  intro hmem
  unfold footerLines at hmem
  simp [List.mem_cons,
    ne_hdr_fixed T "-- ========================================" rfl,
    ne_hdr_fixed T "-- FINALIZATION" rfl,
    ne_hdr_fixed T "" rfl,
    ne_hdr_fixed T "-- Re-enable optimizations" rfl,
    ne_hdr_fixed T "SET session_replication_role = DEFAULT;" rfl,
    ne_hdr_fixed T "SET synchronous_commit = on;" rfl,
    ne_hdr_fixed T "ANALYZE;" rfl,
    ne_hdr_dataPre T ("-- Backup completed: " ++ p.completedTs)
      "-- Backup completed: ".data p.completedTs.data rfl (fun td => rfl)] at hmem

theorem ne_hdr_copyFrom (T U : String) (cols : List String) (d n q e : String) :
    hdrLine T ≠ buildCopyFrom U cols d n q e ++ ";" := by
  refine ne_hdr_dataPre T _ "COPY ".data
    ((U ++ " (" ++ String.intercalate ", " cols ++
      ") FROM stdin WITH (FORMAT CSV, DELIMITER E" ++ sqS ++ d ++ sqS ++ ", NULL " ++
      sqS ++ n ++ sqS ++ ", QUOTE E" ++ sqS ++ q ++ sqS ++ ", ESCAPE E" ++ sqS ++ e ++
      sqS ++ ")" ++ ";").data) ?_ (fun td => rfl)
  simp [buildCopyFrom, String.data_append, List.append_assoc]

theorem hdr_notin_sectionLines (p : WriteParams) (U T : String) (o : TableOutcome)
    (hUT : U ≠ T)
    (hok : ∀ sl cols rows dl bs, o = .ok sl cols rows dl bs →
      hdrLine T ∉ sl ∧ hdrLine T ∉ dl)
    (herr : ∀ pl m, o = .err pl m → hdrLine T ∉ pl ∧ "-- " ++ m ≠ hdrLine T) :
    hdrLine T ∉ sectionLines p U o := by
  intro hmem
  cases o with
  | ok sl cols rows dl bs =>
    obtain ⟨hsl, hdl⟩ := hok sl cols rows dl bs rfl
    simp only [sectionLines] at hmem
    have hhdrU : hdrLine T ≠ hdrLine U := fun h => hUT (hdr_inj h).symm
    by_cases hrows : rows > 0
    · rw [if_pos hrows] at hmem
      simp [List.mem_append, List.mem_cons, hsl, hdl, hhdrU, hhdrU.symm,
        ne_hdr_fixed T "" rfl,
        ne_hdr_fixed T "\\." rfl,
        ne_hdr_dataPre T ("-- Rows: " ++ toString rows)
          "-- Rows: ".data (toString rows).data rfl (fun td => rfl),
        ne_hdr_copyFrom T U cols p.copyDelimiter p.copyNullString "\\b" "\\b"] at hmem
    · rw [if_neg hrows] at hmem
      simp [List.mem_append, List.mem_cons, hsl, hhdrU, hhdrU.symm,
        ne_hdr_fixed T "" rfl,
        ne_hdr_fixed T "-- No rows to export (filtered or empty)" rfl] at hmem
  | err pl m =>
    obtain ⟨hpl, hm⟩ := herr pl m rfl
    simp only [sectionLines] at hmem
    simp [List.mem_append, List.mem_cons, hpl, hm.symm,
      ne_hdr_fixed T "" rfl,
      ne_hdr_dataPre T ("-- ERROR backing up table: " ++ U)
        "-- ERROR backing up table: ".data U.data rfl (fun td => rfl)] at hmem

theorem hdr_notin_writeBackupLines (p : WriteParams) (env : WriteEnv) (T : String)
    (hexT : env.excluded.contains T = true)
    (hok : ∀ U, env.excluded.contains U = false → ∀ sl cols rows dl bs,
      env.outcome U = .ok sl cols rows dl bs → hdrLine T ∉ sl ∧ hdrLine T ∉ dl)
    (herr : ∀ U, env.excluded.contains U = false → ∀ pl m,
      env.outcome U = .err pl m → hdrLine T ∉ pl ∧ "-- " ++ m ≠ hdrLine T) :
    hdrLine T ∉ writeBackupLines p env := by
  intro hmem
  unfold writeBackupLines at hmem
  simp only [List.mem_append] at hmem
  rcases hmem with ((((h | h) | h) | h) | h) | h
  · exact hdr_notin_headerLines p T h
  · exact hdr_notin_schemaSetupLines p T h
  · exact hdr_notin_perfLines p T h
  · simp [List.mem_cons,
      ne_hdr_fixed T "-- ========================================" rfl,
      ne_hdr_fixed T "-- TABLE STRUCTURES AND DATA" rfl,
      ne_hdr_fixed T "" rfl] at h
  · rcases List.mem_flatten.mp h with ⟨sec, hsec, hmem2⟩
    rcases List.mem_map.mp hsec with ⟨U, hU, hfU⟩
    by_cases hexU : env.excluded.contains U = true
    · rw [if_pos (by rw [hexU])] at hfU
      rw [← hfU] at hmem2
      simp at hmem2
    · have hexU2 : env.excluded.contains U = false := by
        cases hx : env.excluded.contains U with
        | false => rfl
        | true => exact absurd hx hexU
      rw [if_neg (by rw [hexU2]; simp)] at hfU
      rw [← hfU] at hmem2
      have hUT : U ≠ T := by
        intro hx
        rw [hx, hexT] at hexU2
        cases hexU2
      exact hdr_notin_sectionLines p U T (env.outcome U) hUT
        (fun sl cols rows dl bs hx => hok U hexU2 sl cols rows dl bs hx)
        (fun pl m hx => herr U hexU2 pl m hx) hmem2
  · exact hdr_notin_footerLines p T h

theorem errorLine_mem_writeBackupLines (p : WriteParams) (env : WriteEnv)
    (B : String) (pl : List String) (m : String)
    (hB : B ∈ env.tables) (hex : env.excluded.contains B = false)
    (herr : env.outcome B = .err pl m) :
    ("-- ERROR backing up table: " ++ B) ∈ writeBackupLines p env := by
  have hinf := sectionLines_infix p env B hB hex
  apply hinf.subset
  rw [herr]
  simp only [sectionLines]
  apply List.mem_append_right
  exact List.mem_cons_of_mem _ (List.mem_cons_self _ _)

theorem statsTables_lookup_excluded (env : WriteEnv) (T : String)
    (hex : env.excluded.contains T = true) :
    ∀ (ts : List String), (statsTables env ts).lookup T = none := by
  intro ts
  induction ts with
  | nil => rfl
  | cons t ts ih =>
    by_cases hext : env.excluded.contains t = true
    · simp only [statsTables, hext, if_true]
      exact ih
    · simp only [statsTables, hext, if_false, Bool.false_eq_true]
      cases ho : tableStatsOf (env.outcome t) with
      | none => exact ih
      | some q =>
        have hb : (T == t) = false := by
          cases hTt : T == t with
          | false => rfl
          | true =>
            rw [beq_iff_eq] at hTt
            rw [hTt] at hex
            rw [hex] at hext
            exact absurd rfl hext
        simp only [List.lookup, hb]
        exact ih

/-! ## Stream wrapper accounting -/

theorem writeAll_spec : ∀ (chunks : List String) (w : CopyWrap),
    (w.writeAll chunks).1 = chunks.map String.utf8ByteSize ∧
    (w.writeAll chunks).2.bytesWritten =
      w.bytesWritten + (chunks.map String.utf8ByteSize).sum ∧
    (w.writeAll chunks).2.chunksWritten = w.chunksWritten + chunks.length := by
  intro chunks
  induction chunks with
  | nil => intro w; simp [CopyWrap.writeAll]
  | cons d ds ih =>
    intro w
    have hw1 : (w.write d).1 = d.utf8ByteSize := rfl
    have hw2 : (w.write d).2.bytesWritten = w.bytesWritten + d.utf8ByteSize := rfl
    have hw3 : (w.write d).2.chunksWritten = w.chunksWritten + 1 := rfl
    obtain ⟨h1, h2, h3⟩ := ih (w.write d).2
    rw [hw2] at h2
    rw [hw3] at h3
    refine ⟨?_, ?_, ?_⟩ <;>
      simp [CopyWrap.writeAll, hw1, h1, h2, h3] <;> omega

/-! ## The claims -/

/-- C1: the bulk-block opacity invariant fails on the code.  A payload line
strictly between the bulk-start line and the terminator that itself begins
with the COPY keyword is re-matched by the bulk-start test (checked before
the in-block state) and is rewritten by the schema-prefix substitution: in
the document below the in-block data line `COPY public.x<TAB>1` is emitted
as `COPY x<TAB>1`, not byte-for-byte. -/
theorem c1_bulk_block_opacity_failure :
    cleanSqlContent "COPY t FROM stdin;\nCOPY public.x\t1\n\\.\n" =
      "COPY t FROM stdin;\nCOPY x\t1\n\\." ∧
    ("COPY public.x\t1" : String) ≠ "COPY x\t1" :=
  ⟨by decide, by decide⟩

/-- C2 counterexample: the cleaning pass is not idempotent.  Cleaning
`x public.public.a` yields `x public.a`; cleaning that output again strips a
further prefix (`x a`), so a second application removes additional content.
-/
theorem c2_reclean_strips_again :
    cleanSqlContent (cleanSqlContent "x public.public.a") ≠
      cleanSqlContent "x public.public.a" := by decide

/-- C2 (amended): re-cleaning the cleaner's output is the identity for every
content none of whose lines contains the schema-qualifier token `public`
(case-insensitively); in general a second pass may strip additional
prefixes regenerated by the first. -/
theorem c2_reclean_idempotent_no_pub (content : String)
    (h : ∀ l ∈ splitNl content.data, containsTokCI pubTok l = false) :
    cleanSqlContent (cleanSqlContent content) = cleanSqlContent content := by
  unfold cleanSqlContent
  exact congrArg String.mk (cleanSqlContentL_idem content.data h)

/-- C2 witness: a concrete document (with a COPY block, droppable lines and
no `public` token) on which re-cleaning is verified to be a no-op. -/
theorem c2_reclean_idempotent_no_pub_witness :
    (∀ l ∈ splitNl ("SET search_path = foo;\nCREATE TABLE users (id integer);\nCOPY users (id) FROM stdin;\n1\n\\.\n").data,
      containsTokCI pubTok l = false) ∧
    cleanSqlContent (cleanSqlContent
      "SET search_path = foo;\nCREATE TABLE users (id integer);\nCOPY users (id) FROM stdin;\n1\n\\.\n") =
    cleanSqlContent
      "SET search_path = foo;\nCREATE TABLE users (id integer);\nCOPY users (id) FROM stdin;\n1\n\\.\n" :=
  ⟨by decide, c2_reclean_idempotent_no_pub _ (by decide)⟩

/-- C3: the two literal schema-prefix stripping cases: `CREATE TABLE
public.accounts (...)` becomes `CREATE TABLE accounts (...)`, and `ALTER
TABLE ONLY public.accounts ADD CONSTRAINT ...` becomes `ALTER TABLE accounts
ADD CONSTRAINT ...` (the ONLY qualifier dropped with the prefix). -/
theorem c3_schema_prefix_literal_cases :
    cleanSqlContent "CREATE TABLE public.accounts (...)" =
      "CREATE TABLE accounts (...)" ∧
    cleanSqlContent "ALTER TABLE ONLY public.accounts ADD CONSTRAINT ..." =
      "ALTER TABLE accounts ADD CONSTRAINT ..." :=
  ⟨by decide, by decide⟩

/-- C4 counterexample: the drop-statement substitution does not leave the
rest of the line unchanged — it inserts `IF EXISTS` after the keyword:
`DROP TABLE public.users;` becomes `DROP TABLE IF EXISTS users;`, not
`DROP TABLE users;`. -/
theorem c4_drop_sub_inserts_if_exists :
    runSub mDropStmt ("DROP TABLE public.users;").data =
      ("DROP TABLE IF EXISTS users;").data ∧
    runSub mDropStmt ("DROP TABLE public.users;").data ≠
      ("DROP TABLE users;").data :=
  ⟨by decide, by decide⟩

/-- C4 (amended): for every line `DROP <kw> public.<ident><rest>` with
`<kw>` either `TABLE` or `SEQUENCE`, a valid identifier, a rest that does
not extend the identifier and contains no further `public` token, the
drop-statement substitution strips the `public.` qualifier AND normalizes
the statement to include `IF EXISTS` (inserting it when absent); the text
after the identifier is unchanged. -/
theorem c4_drop_sub_amended (kw idt rest : List Char)
    (hkw : kw = "TABLE".data ∨ kw = "SEQUENCE".data)
    (hid : identOk idt = true) (hrest : headNotWord rest = true)
    (hnp : containsTokCI pubTok rest = false) :
    runSub mDropStmt ("DROP ".data ++ kw ++ " public.".data ++ idt ++ rest) =
      "DROP ".data ++ kw ++ " IF EXISTS ".data ++ idt ++ rest := by
  have hident := identCap_append idt rest hid hrest
  rcases hkw with rfl | rfl
  · have e : "DROP ".data ++ "TABLE".data ++ " public.".data ++ idt ++ rest =
        'D' :: 'R' :: 'O' :: 'P' :: ' ' :: 'T' :: 'A' :: 'B' :: 'L' :: 'E' :: ' ' ::
          'p' :: 'u' :: 'b' :: 'l' :: 'i' :: 'c' :: '.' :: (idt ++ rest) := by
      simp
    rw [e]
    have hmatch : mDropStmt none ('D' :: 'R' :: 'O' :: 'P' :: ' ' :: 'T' :: 'A' :: 'B' ::
        'L' :: 'E' :: ' ' :: 'p' :: 'u' :: 'b' :: 'l' :: 'i' :: 'c' :: '.' :: (idt ++ rest)) =
        some ("DROP TABLE IF EXISTS ".data ++ idt,
          'D' :: 'R' :: 'O' :: 'P' :: ' ' :: 'T' :: 'A' :: 'B' :: 'L' :: 'E' :: ' ' ::
            'p' :: 'u' :: 'b' :: 'l' :: 'i' :: 'c' :: '.' :: idt, rest) := by
      simp +decide [mDropStmt, mkMatcher, tryAlts, matchSimple, litCIcap, sp1cap, atB,
        hident, renderTpl, isPySpace, lowerC]
    unfold runSub
    have hlen : ('D' :: 'R' :: 'O' :: 'P' :: ' ' :: 'T' :: 'A' :: 'B' :: 'L' :: 'E' :: ' ' ::
        'p' :: 'u' :: 'b' :: 'l' :: 'i' :: 'c' :: '.' :: (idt ++ rest)).length =
        ((idt ++ rest).length + 17) + 1 := by
      simp only [List.length_cons]
      try omega
    rw [hlen]
    have hle : rest.length ≤ ('R' :: 'O' :: 'P' :: ' ' :: 'T' :: 'A' :: 'B' :: 'L' :: 'E' ::
        ' ' :: 'p' :: 'u' :: 'b' :: 'l' :: 'i' :: 'c' :: '.' :: (idt ++ rest)).length := by
      simp only [List.length_cons, List.length_append]
      try omega
    rw [subAllF_step mDropStmt ((idt ++ rest).length + 17) none 'D' _ _ _ rest hmatch hle]
    rw [subAllF_id mDropStmt mDropStmt_pub _ _ rest hnp]
    simp
  · have e : "DROP ".data ++ "SEQUENCE".data ++ " public.".data ++ idt ++ rest =
        'D' :: 'R' :: 'O' :: 'P' :: ' ' :: 'S' :: 'E' :: 'Q' :: 'U' :: 'E' :: 'N' :: 'C' ::
          'E' :: ' ' :: 'p' :: 'u' :: 'b' :: 'l' :: 'i' :: 'c' :: '.' :: (idt ++ rest) := by
      simp
    rw [e]
    have hmatch : mDropStmt none ('D' :: 'R' :: 'O' :: 'P' :: ' ' :: 'S' :: 'E' :: 'Q' ::
        'U' :: 'E' :: 'N' :: 'C' :: 'E' :: ' ' :: 'p' :: 'u' :: 'b' :: 'l' :: 'i' :: 'c' ::
        '.' :: (idt ++ rest)) =
        some ("DROP SEQUENCE IF EXISTS ".data ++ idt,
          'D' :: 'R' :: 'O' :: 'P' :: ' ' :: 'S' :: 'E' :: 'Q' :: 'U' :: 'E' :: 'N' :: 'C' ::
            'E' :: ' ' :: 'p' :: 'u' :: 'b' :: 'l' :: 'i' :: 'c' :: '.' :: idt, rest) := by
      simp +decide [mDropStmt, mkMatcher, tryAlts, matchSimple, litCIcap, sp1cap, atB,
        hident, renderTpl, isPySpace, lowerC]
    unfold runSub
    have hlen : ('D' :: 'R' :: 'O' :: 'P' :: ' ' :: 'S' :: 'E' :: 'Q' :: 'U' :: 'E' :: 'N' ::
        'C' :: 'E' :: ' ' :: 'p' :: 'u' :: 'b' :: 'l' :: 'i' :: 'c' :: '.' ::
        (idt ++ rest)).length = ((idt ++ rest).length + 20) + 1 := by
      simp only [List.length_cons]
      try omega
    rw [hlen]
    have hle : rest.length ≤ ('R' :: 'O' :: 'P' :: ' ' :: 'S' :: 'E' :: 'Q' :: 'U' :: 'E' ::
        'N' :: 'C' :: 'E' :: ' ' :: 'p' :: 'u' :: 'b' :: 'l' :: 'i' :: 'c' :: '.' ::
        (idt ++ rest)).length := by
      simp only [List.length_cons, List.length_append]
      try omega
    rw [subAllF_step mDropStmt ((idt ++ rest).length + 20) none 'D' _ _ _ rest hmatch hle]
    rw [subAllF_id mDropStmt mDropStmt_pub _ _ rest hnp]
    simp

/-- C4 witness: the amended drop-substitution behaviour at a concrete
SEQUENCE statement. -/
theorem c4_drop_sub_amended_witness :
    runSub mDropStmt ("DROP ".data ++ "SEQUENCE".data ++ " public.".data ++
        "seq1".data ++ ";".data) =
      "DROP ".data ++ "SEQUENCE".data ++ " IF EXISTS ".data ++ "seq1".data ++ ";".data :=
  c4_drop_sub_amended "SEQUENCE".data "seq1".data ";".data (Or.inr rfl)
    (by decide) (by decide) (by decide)

/-- C5 counterexample: an internal step that raises an exception whose text
is empty (Python `str(e) == ""`, e.g. `raise Exception()`) produces a
failure result whose `error_message` is the empty string, refuting the
claim's non-emptiness for every exception. -/
theorem c5_error_message_can_be_empty :
    (backupModel true true
      ⟨Except.ok (), Except.error "", Except.ok (), Except.ok ⟨0, 0, []⟩,
       Except.ok (), Except.ok 0⟩ "out.sql" 5).success = false ∧
    (backupModel true true
      ⟨Except.ok (), Except.error "", Except.ok (), Except.ok ⟨0, 0, []⟩,
       Except.ok (), Except.ok 0⟩ "out.sql" 5).errorMessage = some "" :=
  ⟨rfl, rfl⟩

/-- C5 (amended): `backup` is a total function of the step outcomes — it
never propagates an exception.  When the first failing step raises exception
text `e`, the result is the failure record with `success = false`,
`error_message = e` and the elapsed duration; the message is non-empty
whenever the exception text is.  When no step fails, the result reports
success with the elapsed duration. -/
theorem c5_backup_never_raises (hasFilters cleanOutput : Bool) (st : StepsOutcome)
    (outputPath : String) (elapsed : Nat) :
    (∀ e, firstFailure hasFilters cleanOutput st = some e →
      backupModel hasFilters cleanOutput st outputPath elapsed = failResult e elapsed ∧
      (failResult e elapsed).success = false ∧
      (failResult e elapsed).errorMessage = some e ∧
      (failResult e elapsed).durationSeconds = elapsed ∧
      (e ≠ "" → (failResult e elapsed).errorMessage ≠ some "")) ∧
    (firstFailure hasFilters cleanOutput st = none →
      (backupModel hasFilters cleanOutput st outputPath elapsed).success = true ∧
      (backupModel hasFilters cleanOutput st outputPath elapsed).durationSeconds =
        elapsed) := by
  obtain ⟨v, c, mk, w, cl, sz⟩ := st
  constructor
  · intro e hfe
    refine ⟨?_, rfl, rfl, rfl, ?_⟩
    · cases hasFilters <;> cases cleanOutput <;> cases v <;> cases c <;> cases mk <;>
        cases w <;> cases cl <;> cases sz <;>
        simp_all [backupModel, firstFailure]
    · intro hne h
      exact hne (Option.some.inj h)
  · intro hfe
    cases hasFilters <;> cases cleanOutput <;> cases v <;> cases c <;> cases mk <;>
      cases w <;> cases cl <;> cases sz <;>
      simp_all [backupModel, firstFailure]

/-- C5 witness: a run whose connect step raises `boom` surfaces the message
in the returned record instead of raising. -/
theorem c5_backup_never_raises_witness :
    backupModel true false
      ⟨Except.ok (), Except.error "boom", Except.ok (), Except.ok ⟨0, 0, []⟩,
       Except.ok (), Except.ok 3⟩ "p.sql" 7 = failResult "boom" 7 ∧
    (failResult "boom" 7).errorMessage = some "boom" := by
  have h := (c5_backup_never_raises true false
    ⟨Except.ok (), Except.error "boom", Except.ok (), Except.ok ⟨0, 0, []⟩,
     Except.ok (), Except.ok 3⟩ "p.sql" 7).1 "boom" rfl
  exact ⟨h.1, h.2.2.1⟩

/-- C6: per-table failure isolation in `_write_backup`.  When table `B`'s
backup step raises (after validation), `B` is absent from `stats['tables']`,
the inline error comment for `B` is in the document, every other
non-excluded table still contributes its stats entry and its complete
section, and a `backup` run built on this write step reports success with
these stats. -/
theorem c6_per_table_failure_isolation (p : WriteParams) (env : WriteEnv)
    (B : String) (pl : List String) (m : String)
    (hnd : env.tables.Nodup) (hB : B ∈ env.tables)
    (hex : env.excluded.contains B = false)
    (herr : env.outcome B = .err pl m) :
    (writeStats env).tables.lookup B = none ∧
    ("-- ERROR backing up table: " ++ B) ∈ writeBackupLines p env ∧
    (∀ T, T ∈ env.tables → env.excluded.contains T = false →
      (writeStats env).tables.lookup T = tableStatsOf (env.outcome T) ∧
      sectionLines p T (env.outcome T) <:+: writeBackupLines p env) ∧
    (∀ (path : String) (elapsed n : Nat),
      (backupModel false false ⟨Except.ok (), Except.ok (), Except.ok (),
        Except.ok (writeStats env), Except.ok (), Except.ok n⟩ path elapsed).success =
        true ∧
      (backupModel false false ⟨Except.ok (), Except.ok (), Except.ok (),
        Except.ok (writeStats env), Except.ok (), Except.ok n⟩ path elapsed).stats =
        some (writeStats env)) := by
  refine ⟨?_, ?_, ?_, ?_⟩
  · exact statsTables_lookup_err env B pl m herr env.tables
  · exact errorLine_mem_writeBackupLines p env B pl m hB hex herr
  · intro T hT hexT
    exact ⟨statsTables_lookup_ok env env.tables T hnd hT hexT,
      sectionLines_infix p env T hT hexT⟩
  · intro path elapsed n
    exact ⟨rfl, rfl⟩

/-- C6 witness: in a run over tables `a`, `b`, `c` where `b` fails with
`boom`, `b` is absent from the stats, its error comment is present, `a`
still has its full entry and section, and the overall result is a success.
-/
theorem c6_per_table_failure_isolation_witness :
    (writeStats sampleErrEnv).tables.lookup "b" = none ∧
    ("-- ERROR backing up table: " ++ "b") ∈ writeBackupLines sampleParams sampleErrEnv ∧
    (writeStats sampleErrEnv).tables.lookup "a" =
      some ⟨2, 4, 1⟩ ∧
    sectionLines sampleParams "a" (sampleErrEnv.outcome "a") <:+:
      writeBackupLines sampleParams sampleErrEnv ∧
    (backupModel false false ⟨Except.ok (), Except.ok (), Except.ok (),
      Except.ok (writeStats sampleErrEnv), Except.ok (), Except.ok 9⟩
      "p.sql" 1).success = true := by
  have h := c6_per_table_failure_isolation sampleParams sampleErrEnv "b" [] "boom"
    (by decide) (by decide) (by decide) rfl
  refine ⟨h.1, h.2.1, ?_, (h.2.2.1 "a" (by decide) (by decide)).2,
    (h.2.2.2 "p.sql" 1 9).1⟩
  have h2 := (h.2.2.1 "a" (by decide) (by decide)).1
  rw [h2]
  rfl

/-- C7: a `ForeignKeyFilter` with an empty value list renders a `WHERE 1=0`
select for every table and schema, and a `CompositeFilter` AND-composition
of two filters that each render a WHERE clause produces a select whose WHERE
clause is the two sub-conditions parenthesized and joined by `AND`. -/
theorem c7_filter_composition :
    (∀ (col t schema : String),
      foreignKeyBuild col [] t schema =
        "SELECT * FROM " ++ schema ++ "." ++ t ++ " WHERE 1=0") ∧
    (∀ (f g : String → String → String) (t schema c1 c2 : String),
      extractCondition (f t schema) = some c1 →
      extractCondition (g t schema) = some c2 →
      compositeBuild "AND" [f, g] t schema =
        "SELECT * FROM " ++ schema ++ "." ++ t ++
          " WHERE (" ++ c1 ++ ") AND (" ++ c2 ++ ")") := by
  constructor
  · intro col t schema
    rfl
  · intro f g t schema c1 c2 h1 h2
    unfold compositeBuild
    rw [if_neg (by simp)]
    simp only [List.filterMap, h1, h2, Option.map_some]
    rw [if_neg (by simp)]
    apply String.ext
    simp [String.intercalate, String.intercalate.go, String.data_append,
      List.append_assoc]

/-- C7 witness: the empty-value filter and a concrete AND-composition. -/
theorem c7_filter_composition_witness :
    foreignKeyBuild "customer_id" [] "orders" "public" =
      "SELECT * FROM public.orders WHERE 1=0" ∧
    compositeBuild "AND"
      [customQueryBuild "SELECT * FROM t1 WHERE a > 1",
       customQueryBuild "SELECT * FROM t2 WHERE b < 2"] "orders" "public" =
      "SELECT * FROM public.orders WHERE (a > 1) AND (b < 2)" := by
  have h := c7_filter_composition
  constructor
  · rw [h.1 "customer_id" "orders" "public"]
    decide
  · rw [h.2 (customQueryBuild "SELECT * FROM t1 WHERE a > 1")
      (customQueryBuild "SELECT * FROM t2 WHERE b < 2") "orders" "public"
      "a > 1" "b < 2" (by decide) (by decide)]
    decide

/-- C8: an excluded table `T` never appears — its section header line is not
in the written document (the externally-sourced lines are assumed not to
contain it), `stats['tables']` has no key `T`, and `estimate_size` returns
no key `T`. -/
theorem c8_excluded_tables_never_appear (p : WriteParams) (env : WriteEnv)
    (T : String) (hex : env.excluded.contains T = true)
    (hok : ∀ U, env.excluded.contains U = false → ∀ sl cols rows dl bs,
      env.outcome U = .ok sl cols rows dl bs → hdrLine T ∉ sl ∧ hdrLine T ∉ dl)
    (herr : ∀ U, env.excluded.contains U = false → ∀ pl m,
      env.outcome U = .err pl m → hdrLine T ∉ pl ∧ "-- " ++ m ≠ hdrLine T) :
    hdrLine T ∉ writeBackupLines p env ∧
    (writeStats env).tables.lookup T = none ∧
    ∀ cnt : String → Nat,
      (estimateSize env.tables env.excluded cnt).lookup T = none := by
  refine ⟨hdr_notin_writeBackupLines p env T hex hok herr, ?_, ?_⟩
  · exact statsTables_lookup_excluded env T hex env.tables
  · intro cnt
    exact estimateSize_lookup_none env.tables env.excluded cnt T hex

/-- C8 witness: excluding `audit_log` keeps its section header out of the
document and its key out of both stats and size estimates. -/
theorem c8_excluded_tables_never_appear_witness :
    hdrLine "audit_log" ∉ writeBackupLines sampleParams sampleExcludeEnv ∧
    (writeStats sampleExcludeEnv).tables.lookup "audit_log" = none ∧
    (estimateSize sampleExcludeEnv.tables sampleExcludeEnv.excluded
      (fun _ => 5)).lookup "audit_log" = none := by
  have h := c8_excluded_tables_never_appear sampleParams sampleExcludeEnv "audit_log"
    (by decide)
    (fun U hU sl cols rows dl bs heq => by
      cases heq
      exact ⟨by decide, by decide⟩)
    (fun U hU pl m heq => by cases heq)
  exact ⟨h.1, h.2.1, h.2.2 (fun _ => 5)⟩

/-- C9: stream-wrapper accounting — each `write` returns the UTF-8 byte
count of its chunk, after any call sequence `bytes_written` is the sum of
the returned counts and `chunks_written` the number of calls, the stats
accessor reports them with `avg_chunk_size = bytes_written /
max(chunks_written, 1)`, and `flush`/`close` reach the sink only if
supported and change no counter. -/
theorem c9_stream_wrapper_accounting (caps : SinkCaps) (chunks : List String) :
    ((CopyWrap.init caps).writeAll chunks).1 = chunks.map String.utf8ByteSize ∧
    ((CopyWrap.init caps).writeAll chunks).2.bytesWritten =
      (chunks.map String.utf8ByteSize).sum ∧
    ((CopyWrap.init caps).writeAll chunks).2.chunksWritten = chunks.length ∧
    ((CopyWrap.init caps).writeAll chunks).2.stats =
      (((CopyWrap.init caps).writeAll chunks).2.bytesWritten,
       ((CopyWrap.init caps).writeAll chunks).2.chunksWritten,
       (((CopyWrap.init caps).writeAll chunks).2.bytesWritten : ℚ) /
         (max ((CopyWrap.init caps).writeAll chunks).2.chunksWritten 1 : ℚ)) ∧
    (∀ w : CopyWrap,
      w.flush.bytesWritten = w.bytesWritten ∧
      w.flush.chunksWritten = w.chunksWritten ∧
      w.flush.outLog.writtenData = w.outLog.writtenData ∧
      w.flush.outLog.flushCalls =
        w.outLog.flushCalls + (if w.caps.hasFlush then 1 else 0) ∧
      w.close.bytesWritten = w.bytesWritten ∧
      w.close.chunksWritten = w.chunksWritten ∧
      w.close.outLog.writtenData = w.outLog.writtenData ∧
      w.close.outLog.closeCalls =
        w.outLog.closeCalls + (if w.caps.hasClose then 1 else 0)) := by
  obtain ⟨h1, h2, h3⟩ := writeAll_spec chunks (CopyWrap.init caps)
  refine ⟨h1, by simpa [CopyWrap.init] using h2, by simpa [CopyWrap.init] using h3,
    rfl, ?_⟩
  intro w
  unfold CopyWrap.flush CopyWrap.close
  by_cases hf : w.caps.hasFlush = true <;> by_cases hc : w.caps.hasClose = true <;>
    simp [hf, hc]

/-- C10 (implicit behaviour): a `CompositeFilter` whose sub-filters all
render queries without a WHERE keyword silently discards them and returns
the unfiltered select for the table. -/
theorem c10_composite_discards_conditionless (op : String)
    (subs : List (String → String → String)) (t schema : String)
    (h : ∀ f ∈ subs, extractCondition (f t schema) = none) :
    compositeBuild op subs t schema = "SELECT * FROM " ++ schema ++ "." ++ t := by
  unfold compositeBuild
  have hc : subs.filterMap
      (fun f => (extractCondition (f t schema)).map fun c => "(" ++ c ++ ")") = [] := by
    induction subs with
    | nil => rfl
    | cons f fs ih =>
      simp only [List.filterMap, h f (List.mem_cons_self _ _), Option.map_none]
      exact ih (fun q hq => h q (List.mem_cons_of_mem _ hq))
  rw [hc]
  by_cases hs : subs.isEmpty
  · rw [if_pos hs]
  · rw [if_neg hs]
    simp

/-- C10 witness: two `CustomQueryFilter`s wrapping plain selects are
discarded and the unfiltered select is returned. -/
theorem c10_composite_discards_conditionless_witness :
    (∀ f ∈ [customQueryBuild "SELECT * FROM t",
        customQueryBuild "SELECT id FROM users"],
      extractCondition (f "orders" "public") = none) ∧
    compositeBuild "AND"
      [customQueryBuild "SELECT * FROM t",
       customQueryBuild "SELECT id FROM users"] "orders" "public" =
      "SELECT * FROM " ++ "public" ++ "." ++ "orders" :=
  ⟨by decide,
    c10_composite_discards_conditionless "AND" _ "orders" "public" (by decide)⟩

end PgBackup
